import Mathlib

/-!
Verification development for the OLS MCP server (`src/ols_mcp_server/server.py`
and `src/ols_mcp_server/models.py`).

The Python source is shallowly embedded: pure helper functions become Lean
functions, JSON values become an inductive type, Python exceptions become an
explicit `Except PyErr` result, and the single outbound HTTP request of each
tool operation becomes an explicit `HttpResult` input.  Python integers are
unbounded, so they are modelled by `Nat`/`Int`; JSON numbers are modelled as
integers (no tool in this code base computes with fractional values).
-/

/-! ## Byte-level percent encoding (`url_encode_iri`, server.py lines 25-27)

Python's `urllib.parse.quote(s, safe="")` UTF-8 encodes the string and then
percent-escapes every byte outside the unreserved set `A-Z a-z 0-9 - . _ ~`,
using uppercase hex digits.  `urllib.parse.unquote` performs the inverse:
percent-decoding followed by UTF-8 decoding.  Bytes are modelled as `Nat`
values below 256. -/

/-- Unreserved bytes that `urllib.parse.quote` never escapes, even with
`safe=""`: ASCII letters, digits, and `-` `.` `_` `~`. -/
def isUnres (b : Nat) : Bool :=
  (48 ≤ b && b ≤ 57) || (65 ≤ b && b ≤ 90) || (97 ≤ b && b ≤ 122) ||
    b == 45 || b == 46 || b == 95 || b == 126

/-- Uppercase hex digit byte for a value below 16 (as used by `quote`). -/
def hexDigU (n : Nat) : Nat := if n < 10 then 48 + n else 55 + n

/-- Percent-encode a byte sequence, escaping every byte outside the
unreserved set; model of `urllib.parse.quote(-, safe="")` after UTF-8
encoding. -/
def pquote : List Nat → List Nat
  | [] => []
  | b :: bs =>
    if isUnres b then b :: pquote bs
    else 37 :: hexDigU (b / 16) :: hexDigU (b % 16) :: pquote bs

/-- Value of a hex digit byte (0 for non-hex bytes). -/
def hexValB (b : Nat) : Nat :=
  if 48 ≤ b && b ≤ 57 then b - 48
  else if 65 ≤ b && b ≤ 70 then b - 55
  else if 97 ≤ b && b ≤ 102 then b - 87
  else 0

/-- Whether a byte is an ASCII hex digit (either case), as accepted by
`urllib.parse.unquote`. -/
def isHexB (b : Nat) : Bool :=
  (48 ≤ b && b ≤ 57) || (65 ≤ b && b ≤ 70) || (97 ≤ b && b ≤ 102)

/-- Percent-decode a byte sequence; model of the byte-level part of
`urllib.parse.unquote`.  An incomplete or invalid escape leaves the `%`
byte in place, as `unquote` does. -/
def pdecode : List Nat → List Nat
  | 37 :: h1 :: h2 :: bs2 =>
    if isHexB h1 && isHexB h2 then
      (16 * hexValB h1 + hexValB h2) :: pdecode bs2
    else 37 :: pdecode (h1 :: h2 :: bs2)
  | b :: bs => b :: pdecode bs
  | [] => []

/-- UTF-8 bytes of one Unicode scalar value. -/
def utf8Char (c : Char) : List Nat :=
  let n := c.toNat
  if n < 0x80 then [n]
  else if n < 0x800 then [0xC0 + n / 64, 0x80 + n % 64]
  else if n < 0x10000 then [0xE0 + n / 4096, 0x80 + n / 64 % 64, 0x80 + n % 64]
  else [0xF0 + n / 0x40000, 0x80 + n / 4096 % 64, 0x80 + n / 64 % 64, 0x80 + n % 64]

/-- UTF-8 encoding of a character sequence. -/
def utf8Encode (cs : List Char) : List Nat :=
  cs.foldr (fun c acc => utf8Char c ++ acc) []

/-!
The UTF-8 decoder below returns `none` on malformed input.  The helpers
`utf8Dec2`, `utf8Dec3`, `utf8Dec4` consume the continuation bytes of a 2-,
3-, or 4-byte sequence whose leading byte is `b`.
-/

mutual

/-- UTF-8 decoding of a byte sequence. -/
def utf8Decode : List Nat → Option (List Char)
  | [] => some []
  | b :: bs =>
    if b < 0x80 then (utf8Decode bs).map (fun l => Char.ofNat b :: l)
    else if b < 0xC0 then none
    else if b < 0xE0 then utf8Dec2 b bs
    else if b < 0xF0 then utf8Dec3 b bs
    else if b < 0xF8 then utf8Dec4 b bs
    else none

def utf8Dec2 (b : Nat) : List Nat → Option (List Char)
  | b1 :: bs1 =>
    if 0x80 ≤ b1 ∧ b1 < 0xC0 then
      if 0x80 ≤ (b - 0xC0) * 64 + (b1 - 0x80) then
        (utf8Decode bs1).map (fun l => Char.ofNat ((b - 0xC0) * 64 + (b1 - 0x80)) :: l)
      else none
    else none
  | [] => none

def utf8Dec3 (b : Nat) : List Nat → Option (List Char)
  | b1 :: b2 :: bs2 =>
    if (0x80 ≤ b1 ∧ b1 < 0xC0) ∧ (0x80 ≤ b2 ∧ b2 < 0xC0) then
      if 0x800 ≤ (b - 0xE0) * 4096 + (b1 - 0x80) * 64 + (b2 - 0x80) ∧
          ((b - 0xE0) * 4096 + (b1 - 0x80) * 64 + (b2 - 0x80) < 0xd800 ∨
            0xe000 ≤ (b - 0xE0) * 4096 + (b1 - 0x80) * 64 + (b2 - 0x80)) then
        (utf8Decode bs2).map
          (fun l => Char.ofNat ((b - 0xE0) * 4096 + (b1 - 0x80) * 64 + (b2 - 0x80)) :: l)
      else none
    else none
  | _ => none

def utf8Dec4 (b : Nat) : List Nat → Option (List Char)
  | b1 :: b2 :: b3 :: bs3 =>
    if (0x80 ≤ b1 ∧ b1 < 0xC0) ∧ (0x80 ≤ b2 ∧ b2 < 0xC0) ∧ (0x80 ≤ b3 ∧ b3 < 0xC0) then
      if 0x10000 ≤ (b - 0xF0) * 0x40000 + (b1 - 0x80) * 4096 + (b2 - 0x80) * 64 + (b3 - 0x80) ∧
          (b - 0xF0) * 0x40000 + (b1 - 0x80) * 4096 + (b2 - 0x80) * 64 + (b3 - 0x80) < 0x110000 then
        (utf8Decode bs3).map
          (fun l =>
            Char.ofNat
              ((b - 0xF0) * 0x40000 + (b1 - 0x80) * 4096 + (b2 - 0x80) * 64 + (b3 - 0x80)) :: l)
      else none
    else none
  | _ => none

end


/-- Model of `url_encode_iri` (server.py lines 25-27): double percent encoding
of the UTF-8 bytes of the IRI, with no extra characters marked safe in either
pass.  The Python function returns an ASCII string; its byte sequence is the
value computed here. -/
def url_encode_iri (s : String) : List Nat :=
  pquote (pquote (utf8Encode s.data))

/-! ### Lemmas about percent encoding -/

/-! ## JSON values

A mutual inductive mirrors the values produced by Python's `json.loads`:
`None`, `bool`, `int`, `str`, `list`, `dict` (with string keys, in insertion
order).  JSON numbers are modelled as integers; no operation in this code
base computes with fractional values.  `JObj` keeps key/value pairs in
order, as Python dicts do. -/

mutual

inductive Json where
  | null : Json
  | boolean : Bool → Json
  | num : Int → Json
  | str : String → Json
  | arr : JArr → Json
  | obj : JObj → Json
  deriving DecidableEq

inductive JArr where
  | nil : JArr
  | cons : Json → JArr → JArr
  deriving DecidableEq

inductive JObj where
  | nil : JObj
  | cons : String → Json → JObj → JObj
  deriving DecidableEq

end


/-- Build a `JArr` from a Lean list (construction convenience only). -/
def jarr : List Json → JArr
  | [] => .nil
  | x :: xs => .cons x (jarr xs)

/-- Build a `JObj` from a Lean association list (construction convenience). -/
def jobj : List (String × Json) → JObj
  | [] => .nil
  | (k, v) :: t => .cons k v (jobj t)

/-- Length of a JSON array (Python `len` on a list). -/
def jarrLen : JArr → Nat
  | .nil => 0
  | .cons _ t => 1 + jarrLen t

/-- First `n` elements of a JSON array (Python `l[:n]` for `n ≥ 0`). -/
def jarrTake : Nat → JArr → JArr
  | _, .nil => .nil
  | 0, _ => .nil
  | n + 1, .cons x t => .cons x (jarrTake n t)

/-- Number of entries of a JSON object (Python `len` on a dict). -/
def jobjLen : JObj → Nat
  | .nil => 0
  | .cons _ _ t => 1 + jobjLen t

/-- Key membership in a JSON object (Python `key in dict`). -/
def jobjHasKey : JObj → String → Bool
  | .nil, _ => false
  | .cons k _ t, key => k == key || jobjHasKey t key

/-- Lookup with default (Python `dict.get(key, default)`).  Python dicts
cannot hold duplicate keys, so taking the first match is faithful. -/
def jobjGetD : JObj → String → Json → Json
  | .nil, _, d => d
  | .cons k v t, key, d => if k == key then v else jobjGetD t key d

/-! ## Python integer and value rendering

`natRepr`/`intRepr` model `str` of a Python `int` (decimal digits, `-` sign
for negatives).  `pyRepr`/`pyStr` model Python `repr`/`str` of the values
`json.loads` can produce; string `repr` covers the quote-selection and the
escapes for the backslash, the chosen quote, newline, carriage return, tab
and other control characters (CPython additionally escapes non-printable
characters above ASCII, which no claim here exercises). -/

/-- Decimal digit character. -/
def digitChar (n : Nat) : Char := Char.ofNat (48 + n)

/-- Lowercase hex digit character. -/
def hexDigL (n : Nat) : Char := Char.ofNat (if n < 10 then 48 + n else 87 + n)

/-- Fuelled decimal rendering of a natural number (most significant digit
first); `natRepr` supplies ample fuel. -/
def natReprAux : Nat → Nat → List Char
  | 0, _ => []
  | fuel + 1, n =>
    if n < 10 then [digitChar n] else natReprAux fuel (n / 10) ++ [digitChar (n % 10)]

/-- Decimal digits of a natural number, as in Python `str(n)` for `n ≥ 0`. -/
def natRepr (n : Nat) : List Char := natReprAux (n + 1) n

/-- Decimal rendering of a Python integer, as in `str(n)`. -/
def intRepr (n : Int) : List Char :=
  if n < 0 then '-' :: natRepr n.natAbs else natRepr n.toNat

/-- Model of CPython `repr` of one character inside a string literal whose
chosen quote is `q`. -/
def pyReprCharAux (q : Char) (c : Char) : List Char :=
  if c = '\\' ∨ c = q then ['\\', c]
  else if c = '\n' then ['\\', 'n']
  else if c = '\r' then ['\\', 'r']
  else if c = '\t' then ['\\', 't']
  else if c.toNat < 32 ∨ c.toNat = 127 then
    ['\\', 'x', hexDigL (c.toNat / 16 % 16), hexDigL (c.toNat % 16)]
  else [c]

/-- Model of CPython `repr` of a string: single quotes unless the string
contains `'` but no `"`. -/
def pyReprStr (s : String) : String :=
  let q : Char := if s.data.contains '\'' && !(s.data.contains '"') then '"' else '\''
  ⟨q :: s.data.foldr (fun c acc => pyReprCharAux q c ++ acc) [q]⟩

mutual

/-- Model of Python `repr` on JSON-decoded values. -/
def pyRepr : Json → String
  | .null => "None"
  | .boolean true => "True"
  | .boolean false => "False"
  | .num n => ⟨intRepr n⟩
  | .str s => pyReprStr s
  | .arr xs => "[" ++ pyReprArr xs ++ "]"
  | .obj kvs => "\x7b" ++ pyReprObj kvs ++ "\x7d"

/-- Comma-separated `repr` of list items. -/
def pyReprArr : JArr → String
  | .nil => ""
  | .cons x .nil => pyRepr x
  | .cons x (.cons y t) => pyRepr x ++ ", " ++ pyReprArr (.cons y t)

/-- Comma-separated `repr` of dict entries. -/
def pyReprObj : JObj → String
  | .nil => ""
  | .cons k v .nil => pyReprStr k ++ ": " ++ pyRepr v
  | .cons k v (.cons k2 v2 t) => pyReprStr k ++ ": " ++ pyRepr v ++ ", " ++ pyReprObj (.cons k2 v2 t)

end


/-- Model of Python `str` on JSON-decoded values: the string itself for a
`str`, `repr` otherwise. -/
def pyStr : Json → String
  | .str s => s
  | j => pyRepr j

/-! ## Serialization: model of `json.dumps(-, indent=2)`

CPython with `indent=2` renders containers one entry per line, separator
`", "` collapsed to `",\n" + indentation`, key separator `": "`, empty
containers inline, and `ensure_ascii=True` string escaping: `\"`, `\\`,
`\b`, `\t`, `\n`, `\f`, `\r`, `\u00XX` for other control characters, and
`\uXXXX` (surrogate pairs above `0xFFFF`) for every character above `0x7E`,
with lowercase hex digits. -/

/-- Indentation: `n` space characters. -/
def spacesL (n : Nat) : List Char := List.replicate n ' '

/-- Four lowercase hex digits of a value below `0x10000`. -/
def hex4 (n : Nat) : List Char :=
  [hexDigL (n / 4096 % 16), hexDigL (n / 256 % 16), hexDigL (n / 16 % 16), hexDigL (n % 16)]

/-- JSON escaping of one character, `ensure_ascii` style. -/
def jsonEscChar (c : Char) : List Char :=
  if c = '"' then ['\\', '"']
  else if c = '\\' then ['\\', '\\']
  else if c = '\x08' then ['\\', 'b']
  else if c = '\t' then ['\\', 't']
  else if c = '\n' then ['\\', 'n']
  else if c = '\x0c' then ['\\', 'f']
  else if c = '\r' then ['\\', 'r']
  else if c.toNat < 0x20 ∨ (0x7f ≤ c.toNat ∧ c.toNat < 0x10000) then
    '\\' :: 'u' :: hex4 c.toNat
  else if 0x10000 ≤ c.toNat then
    '\\' :: 'u' :: hex4 (0xd800 + (c.toNat - 0x10000) / 0x400) ++
      '\\' :: 'u' :: hex4 (0xdc00 + (c.toNat - 0x10000) % 0x400)
  else [c]

/-- JSON escaping of a character sequence. -/
def escList (cs : List Char) : List Char :=
  cs.foldr (fun c acc => jsonEscChar c ++ acc) []

/-- JSON string literal: quoted, escaped. -/
def jsonQuoteStr (s : String) : List Char :=
  '"' :: escList s.data ++ ['"']

mutual

/-- Characters of `json.dumps(j, indent=2)` at nesting depth `d`. -/
def dumpsV : Nat → Json → List Char
  | _, .null => ['n', 'u', 'l', 'l']
  | _, .boolean true => ['t', 'r', 'u', 'e']
  | _, .boolean false => ['f', 'a', 'l', 's', 'e']
  | _, .num n => intRepr n
  | _, .str s => jsonQuoteStr s
  | _, .arr .nil => ['[', ']']
  | d, .arr (.cons x xs) =>
    '[' :: '\n' :: spacesL (2 * (d + 1)) ++ dumpsV (d + 1) x ++ dumpsArr (d + 1) xs ++
      '\n' :: spacesL (2 * d) ++ [']']
  | _, .obj .nil => ['\x7b', '\x7d']
  | d, .obj (.cons k v t) =>
    '\x7b' :: '\n' :: spacesL (2 * (d + 1)) ++ jsonQuoteStr k ++ ':' :: ' ' ::
      dumpsV (d + 1) v ++ dumpsObj (d + 1) t ++ '\n' :: spacesL (2 * d) ++ ['\x7d']

/-- Remaining array items, each preceded by `",\n"` and indentation. -/
def dumpsArr : Nat → JArr → List Char
  | _, .nil => []
  | d, .cons x xs => ',' :: '\n' :: spacesL (2 * d) ++ dumpsV d x ++ dumpsArr d xs

/-- Remaining object entries, each preceded by `",\n"` and indentation. -/
def dumpsObj : Nat → JObj → List Char
  | _, .nil => []
  | d, .cons k v t =>
    ',' :: '\n' :: spacesL (2 * d) ++ jsonQuoteStr k ++ ':' :: ' ' :: dumpsV d v ++ dumpsObj d t

end


/-- Model of `json.dumps(j, indent=2)`. -/
def jsonDumps (j : Json) : String := ⟨dumpsV 0 j⟩

/-! ## Python exceptions and common operations -/

/-- Python exceptions that the embedded code can raise. -/
inductive PyErr where
  | typeError (msg : String)
  | indexError
  | keyError (msg : String)
  | attributeError (msg : String)
  | valueError (msg : String)
  | validationError (msg : String)
  deriving DecidableEq

/-- Python `v[:n]` for a nonnegative bound: slices strings and lists,
raises `TypeError` for every other JSON value. -/
def pySlice (v : Json) (n : Nat) : Except PyErr Json :=
  match v with
  | .str s => .ok (.str ⟨s.data.take n⟩)
  | .arr xs => .ok (.arr (jarrTake n xs))
  | _ => .error (.typeError "object is not subscriptable")

/-- Python `len(v)`: defined for strings, lists and dicts, `TypeError`
otherwise. -/
def pyLen (v : Json) : Except PyErr Nat :=
  match v with
  | .str s => .ok s.length
  | .arr xs => .ok (jarrLen xs)
  | .obj kvs => .ok (jobjLen kvs)
  | _ => .error (.typeError "object has no len")

/-! ## Response normalizer (`format_response`, server.py lines 30-65) -/

/-- Loop body of `format_response` for one element that is a dict
(server.py lines 40-54): project to label / iri / description with
empty-string defaults, unwrap a list-valued description to its first
element (or `""`), and truncate when `len(str(description)) > 200`.  The
truncation `description[:200] + "..."` succeeds only for strings: slicing a
non-subscriptable value raises `TypeError`, and slicing a list succeeds but
concatenating `"..."` to it raises `TypeError`. -/
def formatItem (item : JObj) : Except PyErr Json :=
  let label := jobjGetD item "label" (.str "")
  let iri := jobjGetD item "iri" (.str "")
  let description0 := jobjGetD item "description" (.arr .nil)
  let description :=
    match description0 with
    | .arr (.cons d _) => d
    | .arr .nil => .str ""
    | d => d
  if 200 < (pyStr description).length then
    match description with
    | .str s =>
      .ok (.obj (jobj [("label", label), ("iri", iri),
        ("description", .str (⟨s.data.take 200⟩ ++ "..."))]))
    | .arr _ => .error (.typeError "can only concatenate list, not str, to list")
    | _ => .error (.typeError "object is not subscriptable")
  else
    .ok (.obj (jobj [("label", label), ("iri", iri), ("description", description)]))

/-- Loop of `format_response` (server.py lines 39-54) over the sliced
elements list: dict entries are projected in order, other entries are
skipped. -/
def buildItems : JArr → Except PyErr JArr
  | .nil => .ok .nil
  | .cons (.obj item) t => do
    let x ← formatItem item
    let r ← buildItems t
    .ok (.cons x r)
  | .cons _ t => buildItems t

/-- Iteration of the `format_response` loop over the slice result, which is
a list or (when the `elements` value was a string) a string; iterating a
string yields one-character strings, none of which is a dict, so nothing is
appended. -/
def buildItemsOf : Json → Except PyErr JArr
  | .arr xs => buildItems xs
  | _ => .ok .nil

/-- Value serialized by `format_response` (server.py lines 30-65): for a
dict with an `elements` key, the `⟨items, total_items, showing⟩` envelope
built from the first `max_items` elements, with
`total = data.get("totalElements", len(elements))` computed on the sliced
elements; any other value passes through unchanged.  Python evaluates the
`len(elements)` argument of `.get` before the lookup, so a `TypeError`
there is raised even when `totalElements` is present. -/
def format_envelope (data : Json) (max_items : Nat) : Except PyErr Json :=
  match data with
  | .obj kvs =>
    if jobjHasKey kvs "elements" then do
      let elements ← pySlice (jobjGetD kvs "elements" .null) max_items
      let lenEls ← pyLen elements
      let total := jobjGetD kvs "totalElements" (.num (lenEls : Int))
      let items ← buildItemsOf elements
      .ok (.obj (jobj [("items", .arr items), ("total_items", total),
        ("showing", .num ((jarrLen items : Nat) : Int))]))
    else .ok data
  | _ => .ok data

/-- Model of `format_response` (server.py lines 30-65): the envelope or
passthrough value, serialized with `json.dumps(-, indent=2)`. -/
def format_response (data : Json) (max_items : Nat) : Except PyErr String :=
  (format_envelope data max_items).map jsonDumps

/-! ## Parsing: model of `json.loads`

A recursive-descent parser over the character list, with fuel bounding the
nesting depth.  It accepts the grammar that `json.dumps(-, indent=2)`
produces (and standard JSON generally); a lone surrogate escape, which no
`dumps` output contains, is rejected. -/

/-- Skip JSON whitespace. -/
def skipWs : List Char → List Char
  | c :: cs => if c = ' ' ∨ c = '\n' ∨ c = '\t' ∨ c = '\r' then skipWs cs else c :: cs
  | [] => []

/-- ASCII digit test. -/
def isDigitC (c : Char) : Bool := 48 ≤ c.toNat && c.toNat ≤ 57

/-- Digit value of an ASCII digit. -/
def digVal (c : Char) : Nat := c.toNat - 48

/-- Greedy digit consumption: accumulates `a * 10 ^ k + digits`. -/
def parseNumCont : Nat → List Char → Nat × List Char
  | a, c :: cs => if isDigitC c then parseNumCont (a * 10 + digVal c) cs else (a, c :: cs)
  | a, [] => (a, [])

/-- Hex digit test (either case). -/
def isHexC (c : Char) : Bool :=
  isDigitC c || (97 ≤ c.toNat && c.toNat ≤ 102) || (65 ≤ c.toNat && c.toNat ≤ 70)

/-- Hex digit value. -/
def hexValC (c : Char) : Nat :=
  if c.toNat ≤ 57 then c.toNat - 48 else if c.toNat ≤ 70 then c.toNat - 55 else c.toNat - 87

/-- Value of four hex digits. -/
def hex4Val (h1 h2 h3 h4 : Char) : Nat :=
  ((hexValC h1 * 16 + hexValC h2) * 16 + hexValC h3) * 16 + hexValC h4

mutual

/-- JSON string-content parser: `acc` holds parsed characters in reverse;
stops at the closing quote. -/
def parseJStr : List Char → List Char → Option (String × List Char)
  | acc, '"' :: cs => some (⟨acc.reverse⟩, cs)
  | acc, '\\' :: 'u' :: h1 :: h2 :: h3 :: h4 :: cs =>
    if isHexC h1 && isHexC h2 && isHexC h3 && isHexC h4 then
      if 0xd800 ≤ hex4Val h1 h2 h3 h4 ∧ hex4Val h1 h2 h3 h4 < 0xdc00 then
        parseJStrLow (hex4Val h1 h2 h3 h4) acc cs
      else if hex4Val h1 h2 h3 h4 < 0xd800 ∨ 0xe000 ≤ hex4Val h1 h2 h3 h4 then
        parseJStr (Char.ofNat (hex4Val h1 h2 h3 h4) :: acc) cs
      else none
    else none
  | acc, '\\' :: e :: cs =>
    if e = '"' then parseJStr ('"' :: acc) cs
    else if e = '\\' then parseJStr ('\\' :: acc) cs
    else if e = '/' then parseJStr ('/' :: acc) cs
    else if e = 'b' then parseJStr ('\x08' :: acc) cs
    else if e = 'f' then parseJStr ('\x0c' :: acc) cs
    else if e = 'n' then parseJStr ('\n' :: acc) cs
    else if e = 'r' then parseJStr ('\r' :: acc) cs
    else if e = 't' then parseJStr ('\t' :: acc) cs
    else none
  | acc, c :: cs => parseJStr (c :: acc) cs
  | _, [] => none

/-- Low-surrogate continuation after a high surrogate `hi`. -/
def parseJStrLow : Nat → List Char → List Char → Option (String × List Char)
  | hi, acc, '\\' :: 'u' :: g1 :: g2 :: g3 :: g4 :: cs =>
    if isHexC g1 && isHexC g2 && isHexC g3 && isHexC g4 then
      if 0xdc00 ≤ hex4Val g1 g2 g3 g4 ∧ hex4Val g1 g2 g3 g4 < 0xe000 then
        parseJStr
          (Char.ofNat (0x10000 + (hi - 0xd800) * 0x400 + (hex4Val g1 g2 g3 g4 - 0xdc00)) :: acc) cs
      else none
    else none
  | _, _, _ => none

end


/-- String token starting after the opening quote. -/
def parseStrTok (cs : List Char) : Option (Json × List Char) := do
  let (s, r) ← parseJStr [] cs
  some (.str s, r)

/-- Negative number token starting after the minus sign. -/
def parseNegTok : List Char → Option (Json × List Char)
  | d :: rest =>
    if isDigitC d then
      some (.num (-((parseNumCont (digVal d) rest).1 : Int)), (parseNumCont (digVal d) rest).2)
    else none
  | [] => none

/-- Nonnegative number token with leading digit `c`. -/
def parsePosTok (c : Char) (rest : List Char) : Option (Json × List Char) :=
  some (.num ((parseNumCont (digVal c) rest).1 : Int), (parseNumCont (digVal c) rest).2)

mutual

/-- JSON value parser; the fuel bounds nesting and list length. -/
def parseValue (fuel : Nat) (cs : List Char) : Option (Json × List Char) :=
  match fuel with
  | 0 => none
  | fuel + 1 =>
    match skipWs cs with
    | [] => none
    | c :: rest =>
      if c = 'n' then
        if rest.take 3 = ['u', 'l', 'l'] then some (.null, rest.drop 3) else none
      else if c = 't' then
        if rest.take 3 = ['r', 'u', 'e'] then some (.boolean true, rest.drop 3) else none
      else if c = 'f' then
        if rest.take 4 = ['a', 'l', 's', 'e'] then some (.boolean false, rest.drop 4) else none
      else if c = '"' then parseStrTok rest
      else if c = '[' then parseArrStart fuel rest
      else if c = '\x7b' then parseObjStart fuel rest
      else if c = '-' then parseNegTok rest
      else if isDigitC c then parsePosTok c rest
      else none
termination_by (fuel, 0)

/-- Array body after `[`: empty array or first element. -/
def parseArrStart (fuel : Nat) (cs : List Char) : Option (Json × List Char) :=
  match skipWs cs with
  | ']' :: r2 => some (.arr .nil, r2)
  | _ => parseArrFirst fuel cs
termination_by (fuel, 5)

/-- First array element followed by the remaining elements. -/
def parseArrFirst (fuel : Nat) (cs : List Char) : Option (Json × List Char) := do
  let (v, r2) ← parseValue fuel cs
  let (xs, r3) ← parseArrRest fuel r2
  some (.arr (.cons v xs), r3)
termination_by (fuel, 4)

/-- Remaining array elements: `]` ends, `,` continues. -/
def parseArrRest (fuel : Nat) (cs : List Char) : Option (JArr × List Char) :=
  match fuel with
  | 0 => none
  | fuel + 1 =>
    match skipWs cs with
    | ']' :: rest => some (.nil, rest)
    | ',' :: rest => do
      let (v, r2) ← parseValue fuel rest
      let (xs, r3) ← parseArrRest fuel r2
      some (.cons v xs, r3)
    | _ => none
termination_by (fuel, 3)

/-- Object body after the opening brace: empty object or first entry. -/
def parseObjStart (fuel : Nat) (cs : List Char) : Option (Json × List Char) :=
  match skipWs cs with
  | '\x7d' :: r2 => some (.obj .nil, r2)
  | _ => do
    let (k, v, r5) ← parseObjEntryKV fuel cs
    let (t, r6) ← parseObjRest fuel r5
    some (.obj (.cons k v t), r6)
termination_by (fuel, 5)

/-- One `"key": value` entry. -/
def parseObjEntryKV (fuel : Nat) (cs : List Char) : Option (String × Json × List Char) :=
  match skipWs cs with
  | '"' :: r2 => do
    let (k, r3) ← parseJStr [] r2
    let (v, r5) ← parseColonValue fuel r3
    some (k, v, r5)
  | _ => none
termination_by (fuel, 2)

/-- Colon followed by a value. -/
def parseColonValue (fuel : Nat) (cs : List Char) : Option (Json × List Char) :=
  match skipWs cs with
  | ':' :: r4 => parseValue fuel r4
  | _ => none
termination_by (fuel, 1)

/-- Remaining object entries: closing brace ends, `,` continues. -/
def parseObjRest (fuel : Nat) (cs : List Char) : Option (JObj × List Char) :=
  match fuel with
  | 0 => none
  | fuel + 1 =>
    match skipWs cs with
    | '\x7d' :: rest => some (.nil, rest)
    | ',' :: rest => do
      let (k, v, r5) ← parseObjEntryKV fuel rest
      let (t, r6) ← parseObjRest fuel r5
      some (.cons k v t, r6)
    | _ => none
termination_by (fuel, 3)

end


/-- Model of `json.loads`: parse one value, then require only trailing
whitespace.  The fuel `s.length + 1` is ample: each nesting level of the
input consumes at least one character. -/
def jsonLoads (s : String) : Option Json :=
  match parseValue (s.length + 1) s.data with
  | some (v, rest) => if skipWs rest = [] then some v else none
  | none => none

/-! ### Round-trip lemmas: numbers -/

/-- Condition under which greedy number parsing stops exactly at `cs`. -/
def noDigitHead : List Char → Prop
  | [] => True
  | c :: _ => ¬ isDigitC c = true

/-! ### Round-trip lemmas: whitespace and strings -/

/-! ### Round-trip lemmas: value shapes -/

mutual

/-- Fuel bound for parsing the serialization of a value. -/
def szV : Json → Nat
  | .null => 1
  | .boolean _ => 1
  | .num _ => 1
  | .str _ => 1
  | .arr xs => 1 + szA xs
  | .obj kvs => 1 + szO kvs

/-- Fuel bound for the remaining-items parser. -/
def szA : JArr → Nat
  | .nil => 1
  | .cons x t => 1 + szV x + szA t

/-- Fuel bound for the remaining-entries parser. -/
def szO : JObj → Nat
  | .nil => 1
  | .cons _ v t => 1 + szV v + szO t

end


/-- Leading characters of a serialized value: never whitespace and never a
closing bracket. -/
def goodHead (c : Char) : Prop :=
  ¬ (c = ' ' ∨ c = '\n' ∨ c = '\t' ∨ c = '\r') ∧ c ≠ ']' ∧ c ≠ '\x7d'



/-! ## Entity models (`models.py`)

Pydantic v2 semantics embedded: a required field must be present with the
right type or validation fails; an `Optional` field defaults to `None` when
absent and accepts JSON `null`; aliased fields are populated from the alias
key only (`populate_by_name` is off).  `HttpUrl` is modelled as a string
checked to be an absolute `http`/`https` URL with a nonempty host.  Pydantic
reports all field errors at once while this model stops at the first; only
success versus raised `ValidationError` is relied upon below.  Pydantic's
lax string-to-number coercions are not exercised by any claim. -/

/-- Lookup returning the value when the key is present. -/
def jobjFind : JObj → String → Option Json
  | .nil, _ => none
  | .cons k v t, key => if k == key then some v else jobjFind t key

/-- Whether `pat` is a leading subsequence of `s`. -/
def strStarts : List Char → List Char → Bool
  | [], _ => true
  | _ :: _, [] => false
  | p :: ps, c :: cs => p == c && strStarts ps cs

/-- Nonempty URL host: the authority part must not start with a delimiter. -/
def hostNonempty (t : List Char) : Bool :=
  match t with
  | [] => false
  | c :: _ => !(c == '/' || c == '?' || c == '#')

/-- Syntactic absolute `http`/`https` URL check (model of pydantic `HttpUrl`). -/
def isAbsHttpUrl (s : String) : Bool :=
  (strStarts "http://".data s.data && hostNonempty (s.data.drop 7)) ||
    (strStarts "https://".data s.data && hostNonempty (s.data.drop 8))

/-- Required string field. -/
def vReqStr (kvs : JObj) (key : String) : Except PyErr String :=
  match jobjFind kvs key with
  | some (.str s) => .ok s
  | some _ => .error (.validationError (key ++ ": string required"))
  | none => .error (.validationError (key ++ ": field required"))

/-- Optional string field defaulting to `None`. -/
def vOptStr (kvs : JObj) (key : String) : Except PyErr (Option String) :=
  match jobjFind kvs key with
  | none => .ok none
  | some .null => .ok none
  | some (.str s) => .ok (some s)
  | some _ => .error (.validationError (key ++ ": string required"))

/-- Optional integer field defaulting to `None`. -/
def vOptInt (kvs : JObj) (key : String) : Except PyErr (Option Int) :=
  match jobjFind kvs key with
  | none => .ok none
  | some .null => .ok none
  | some (.num n) => .ok (some n)
  | some _ => .error (.validationError (key ++ ": integer required"))

/-- Non-optional integer field with a declared default. -/
def vDfltInt (kvs : JObj) (key : String) (dflt : Int) : Except PyErr Int :=
  match jobjFind kvs key with
  | none => .ok dflt
  | some (.num n) => .ok n
  | some _ => .error (.validationError (key ++ ": integer required"))

/-- Required `HttpUrl` field. -/
def vReqUrl (kvs : JObj) (key : String) : Except PyErr String :=
  match jobjFind kvs key with
  | some (.str s) =>
    if isAbsHttpUrl s then .ok s else .error (.validationError (key ++ ": invalid URL"))
  | some _ => .error (.validationError (key ++ ": URL required"))
  | none => .error (.validationError (key ++ ": field required"))

/-- Optional `HttpUrl` field defaulting to `None`. -/
def vOptUrl (kvs : JObj) (key : String) : Except PyErr (Option String) :=
  match jobjFind kvs key with
  | none => .ok none
  | some .null => .ok none
  | some (.str s) =>
    if isAbsHttpUrl s then .ok (some s) else .error (.validationError (key ++ ": invalid URL"))
  | some _ => .error (.validationError (key ++ ": URL required"))

/-- Optional boolean field with a declared non-`None` default. -/
def vOptBoolD (kvs : JObj) (key : String) (dflt : Bool) : Except PyErr (Option Bool) :=
  match jobjFind kvs key with
  | none => .ok (some dflt)
  | some .null => .ok none
  | some (.boolean b) => .ok (some b)
  | some _ => .error (.validationError (key ++ ": boolean required"))

/-- List of strings from a JSON array. -/
def jarrStrings : JArr → Option (List String)
  | .nil => some []
  | .cons (.str s) t => (jarrStrings t).map (fun l => s :: l)
  | .cons _ _ => none

/-- Optional list-of-strings field defaulting to `None`. -/
def vOptStrList (kvs : JObj) (key : String) : Except PyErr (Option (List String)) :=
  match jobjFind kvs key with
  | none => .ok none
  | some .null => .ok none
  | some (.arr xs) =>
    match jarrStrings xs with
    | some l => .ok (some l)
    | none => .error (.validationError (key ++ ": list of strings required"))
  | some _ => .error (.validationError (key ++ ": list required"))

/-- Model of `OntologyInfo` (models.py lines 4-14). -/
structure OntologyInfo where
  id : String
  title : String
  version : Option String
  description : Option String
  domain : Option String
  homepage : Option String
  preferred_prefix : Option String
  number_of_terms : Option Int
  number_of_classes : Option Int
  repository : Option String
  deriving DecidableEq

/-- Model of `PagedResponse` (models.py lines 16-20). -/
structure PagedResponse where
  total_elements : Int
  page : Int
  size : Int
  total_pages : Int
  deriving DecidableEq

/-- Model of `TermInfo` (models.py lines 26-32). -/
structure TermInfo where
  iri : String
  ontology_name : String
  short_form : String
  label : String
  obo_id : Option String
  is_obsolete : Option Bool
  deriving DecidableEq

/-- Model of `DetailedTermInfo` (models.py lines 38-40): `TermInfo` plus
optional description and synonym lists. -/
structure DetailedTermInfo where
  iri : String
  ontology_name : String
  short_form : String
  label : String
  obo_id : Option String
  is_obsolete : Option Bool
  description : Option (List String)
  synonyms : Option (List String)
  deriving DecidableEq

/-- Model of `OntologyInfo.model_validate`. -/
def ontologyInfoValidate : Json → Except PyErr OntologyInfo
  | .obj kvs => do
    let id ← vReqStr kvs "ontologyId"
    let title ← vReqStr kvs "title"
    let version ← vOptStr kvs "version"
    let description ← vOptStr kvs "description"
    let domain ← vOptStr kvs "domain"
    let homepage ← vOptUrl kvs "homepage"
    let pp ← vOptStr kvs "preferredPrefix"
    let nt ← vOptInt kvs "number_of_terms"
    let nc ← vOptInt kvs "numberOfClasses"
    let repository ← vOptUrl kvs "repository"
    .ok ⟨id, title, version, description, domain, homepage, pp, nt, nc, repository⟩
  | _ => .error (.validationError "dict required")

/-- Model of `PagedResponse.model_validate`. -/
def pagedResponseValidate : Json → Except PyErr PagedResponse
  | .obj kvs => do
    let te ← vDfltInt kvs "totalElements" 0
    let page ← vDfltInt kvs "page" 0
    let size ← vDfltInt kvs "numElements" 20
    let tp ← vDfltInt kvs "totalPages" 0
    .ok ⟨te, page, size, tp⟩
  | _ => .error (.validationError "dict required")

/-- Model of `TermInfo.model_validate`. -/
def termInfoValidate : Json → Except PyErr TermInfo
  | .obj kvs => do
    let iri ← vReqUrl kvs "iri"
    let oname ← vReqStr kvs "ontology_name"
    let sf ← vReqStr kvs "short_form"
    let label ← vReqStr kvs "label"
    let oboId ← vOptStr kvs "oboId"
    let obs ← vOptBoolD kvs "is_obsolete" false
    .ok ⟨iri, oname, sf, label, oboId, obs⟩
  | _ => .error (.validationError "dict required")

/-- Model of `DetailedTermInfo.model_validate`. -/
def detailedTermInfoValidate : Json → Except PyErr DetailedTermInfo
  | .obj kvs => do
    let iri ← vReqUrl kvs "iri"
    let oname ← vReqStr kvs "ontology_name"
    let sf ← vReqStr kvs "short_form"
    let label ← vReqStr kvs "label"
    let oboId ← vOptStr kvs "oboId"
    let obs ← vOptBoolD kvs "is_obsolete" false
    let description ← vOptStrList kvs "description"
    let synonyms ← vOptStrList kvs "synonyms"
    .ok ⟨iri, oname, sf, label, oboId, obs, description, synonyms⟩
  | _ => .error (.validationError "dict required")

/-! ## Tool operations (server.py lines 68-289)

Each tool issues one outbound HTTP GET inside its `try` block, then
post-processes the response.  The request/response effect is made explicit:
an `HttpResult` input stands for the outcome of
`await client.get(...)` / `response.raise_for_status()` / `response.json()`.
`transportError` covers `httpx.TransportError` (connection faults and
timeouts) and `statusError` covers `httpx.HTTPStatusError` from
`raise_for_status`; both are subclasses of `httpx.HTTPError`, the only
exception class the tools catch, and each is turned into the tool's
`"Error <doing X>: ..."` string.  `decodeError` stands for a
`json.JSONDecodeError` from `response.json()`, which is not an
`httpx.HTTPError` and therefore propagates.  Request construction (query
parameters, the double-encoded IRI in the URL path) does not affect the
returned value and is outside the embedded computation. -/

/-- Outcome of the single outbound request of a tool call. -/
inductive HttpResult where
  | success (body : Json)
  | transportError (msg : String)
  | statusError (msg : String)
  | decodeError (msg : String)
  deriving DecidableEq

/-- Value returned by a tool operation (a string, or a typed model). -/
inductive ToolResult where
  | text (s : String)
  | ontology (o : OntologyInfo)
  | term (t : DetailedTermInfo)
  deriving DecidableEq

/-- Membership of a JSON array, with Python `==` restricted to structural
equality of JSON values. -/
def jarrContains : JArr → Json → Bool
  | .nil, _ => false
  | .cons x t, v => if x = v then true else jarrContains t v

/-- Substring test (Python `pat in s` for strings). -/
def substrCheck : List Char → List Char → Bool
  | pat, [] => pat.isEmpty
  | pat, c :: cs => strStarts pat (c :: cs) || substrCheck pat cs

/-- Python `key in v`: key membership for dicts, element membership for
lists, substring test for strings, `TypeError` otherwise. -/
def pyContains (v : Json) (key : String) : Except PyErr Bool :=
  match v with
  | .obj kvs => .ok (jobjHasKey kvs key)
  | .arr xs => .ok (jarrContains xs (.str key))
  | .str s => .ok (substrCheck key.data s.data)
  | _ => .error (.typeError "argument is not iterable")

/-- Python `v[key]` with a string key. -/
def pyGetItemStr (v : Json) (key : String) : Except PyErr Json :=
  match v with
  | .obj kvs =>
    match jobjFind kvs key with
    | some x => .ok x
    | none => .error (.keyError key)
  | .arr _ => .error (.typeError "list indices must be integers")
  | .str _ => .error (.typeError "string indices must be integers")
  | _ => .error (.typeError "object is not subscriptable")

/-- Python `v.get(key, dflt)`: only dicts have `.get`. -/
def pyDictGet (v : Json) (key : String) (dflt : Json) : Except PyErr Json :=
  match v with
  | .obj kvs => .ok (jobjGetD kvs key dflt)
  | _ => .error (.attributeError "object has no attribute get")

/-- Python `v[0]`. -/
def pyIndex0 (v : Json) : Except PyErr Json :=
  match v with
  | .arr (.cons x _) => .ok x
  | .arr .nil => .error .indexError
  | .str s =>
    match s.data with
    | c :: _ => .ok (.str ⟨[c]⟩)
    | [] => .error .indexError
  | .obj _ => .error (.keyError "0")
  | _ => .error (.typeError "object is not subscriptable")

/-- Model of `search_terms` (server.py lines 68-107): on success, flatten a
legacy `response.docs`/`numFound` payload into the `elements`/`totalElements`
envelope, then normalize; the `rows` cap is the `max_items` bound.  Query
parameters other than `rows` only shape the outbound request. -/
def search_terms (rows : Nat) (res : HttpResult) : Except PyErr ToolResult :=
  match res with
  | .success data => do
    let c1 ← pyContains data "response"
    let hit ← if c1 then do
        let resp ← pyGetItemStr data "response"
        pyContains resp "docs"
      else pure false
    if hit then do
      let resp ← pyGetItemStr data "response"
      let docs ← pyGetItemStr resp "docs"
      let dlen ← pyLen docs
      let total ← pyDictGet resp "numFound" (.num (dlen : Int))
      let out ← format_response
        (.obj (.cons "elements" docs (.cons "totalElements" total .nil))) rows
      .ok (.text out)
    else do
      let out ← format_response data rows
      .ok (.text out)
  | .transportError m => .ok (.text ("Error searching terms: " ++ m))
  | .statusError m => .ok (.text ("Error searching terms: " ++ m))
  | .decodeError m => .error (.valueError m)

/-- Model of `get_ontology_info` (server.py lines 110-124): validate the
body as `OntologyInfo`; a `ValidationError` is not caught and propagates. -/
def get_ontology_info (ontology_id : String) (res : HttpResult) : Except PyErr ToolResult :=
  match res with
  | .success data =>
    match ontologyInfoValidate data with
    | .ok o => .ok (.ontology o)
    | .error e => .error e
  | .transportError m => .ok (.text ("Error getting ontology info: " ++ m))
  | .statusError m => .ok (.text ("Error getting ontology info: " ++ m))
  | .decodeError m => .error (.valueError m)

/-- Model of `search_ontologies` (server.py lines 127-151). -/
def search_ontologies (size : Nat) (res : HttpResult) : Except PyErr ToolResult :=
  match res with
  | .success data => do
    let out ← format_response data size
    .ok (.text out)
  | .transportError m => .ok (.text ("Error searching ontologies: " ++ m))
  | .statusError m => .ok (.text ("Error searching ontologies: " ++ m))
  | .decodeError m => .error (.valueError m)

/-- Model of `get_term_info` (server.py lines 154-177): look for
`_embedded.terms`; when the key is present take `terms[0]` (an
`IndexError` on an empty list propagates) and validate it as
`DetailedTermInfo` (a `ValidationError` propagates); when the key is absent
return the not-found message naming the requested id. -/
def get_term_info (id : String) (res : HttpResult) : Except PyErr ToolResult :=
  match res with
  | .success data => do
    let embedded ← pyDictGet data "_embedded" (.obj .nil)
    let c ← pyContains embedded "terms"
    if c then do
      let terms ← pyGetItemStr embedded "terms"
      let t0 ← pyIndex0 terms
      match detailedTermInfoValidate t0 with
      | .ok t => .ok (.term t)
      | .error e => .error e
    else .ok (.text ("Term with ID '" ++ id ++ "' not found in OLS."))
  | .transportError m => .ok (.text ("Error getting term info: " ++ m))
  | .statusError m => .ok (.text ("Error getting term info: " ++ m))
  | .decodeError m => .error (.valueError m)

/-- Model of `get_term_children` (server.py lines 181-216); the request URL
embeds `url_encode_iri term_iri`, which does not affect the result value. -/
def get_term_children (size : Nat) (res : HttpResult) : Except PyErr ToolResult :=
  match res with
  | .success data => do
    let out ← format_response data size
    .ok (.text out)
  | .transportError m => .ok (.text ("Error getting term children: " ++ m))
  | .statusError m => .ok (.text ("Error getting term children: " ++ m))
  | .decodeError m => .error (.valueError m)

/-- Model of `get_term_ancestors` (server.py lines 219-254). -/
def get_term_ancestors (size : Nat) (res : HttpResult) : Except PyErr ToolResult :=
  match res with
  | .success data => do
    let out ← format_response data size
    .ok (.text out)
  | .transportError m => .ok (.text ("Error getting term ancestors: " ++ m))
  | .statusError m => .ok (.text ("Error getting term ancestors: " ++ m))
  | .decodeError m => .error (.valueError m)

/-- Model of `find_similar_terms` (server.py lines 257-289). -/
def find_similar_terms (size : Nat) (res : HttpResult) : Except PyErr ToolResult :=
  match res with
  | .success data => do
    let out ← format_response data size
    .ok (.text out)
  | .transportError m => .ok (.text ("Error finding similar terms: " ++ m))
  | .statusError m => .ok (.text ("Error finding similar terms: " ++ m))
  | .decodeError m => .error (.valueError m)

/-! ## Helper predicates for the claims -/

/-- Every element that is a dict projects without error (non-dict elements
are skipped by the loop, so they impose no condition). -/
def allItemsOk : JArr → Bool
  | .nil => true
  | .cons (.obj item) t => (formatItem item).isOk && allItemsOk t
  | .cons _ t => allItemsOk t

/-- Every element is a dict and projects without error. -/
def allObjOk : JArr → Bool
  | .nil => true
  | .cons (.obj item) t => (formatItem item).isOk && allObjOk t
  | .cons _ _ => false

/-- Input shapes that take the passthrough branch of `format_response`. -/
def noElementsKey : Json → Bool
  | .obj kvs => !(jobjHasKey kvs "elements")
  | _ => true

/-- Test string of 201 characters (exceeds the truncation threshold). -/
def bigDescr : String := ⟨List.replicate 201 'a'⟩

/-! ## Claims C1, C2, C3 -/

/-! ## Claims C5, C6, C7 -/

/-- Inputs on which `format_response` cannot raise: the `elements` value,
when present, is a list whose dict entries all project without error, or a
string. -/
def formatSafe (data : Json) (n : Nat) : Bool :=
  match data with
  | .obj kvs =>
    match jobjFind kvs "elements" with
    | none => true
    | some (.arr xs) => allItemsOk (jarrTake n xs)
    | some (.str _) => true
    | some _ => false
  | _ => true

/-! ## Claims C8, C9, C10 -/

theorem hexDigU_isHex {n : Nat} (h : n < 16) :
    isHexB (hexDigU n) = true ∧ hexValB (hexDigU n) = n := by
  revert n; decide

theorem pdecode_nil : pdecode [] = [] := rfl

theorem pdecode_cons {b : Nat} {bs : List Nat} (hb : b ≠ 37) :
    pdecode (b :: bs) = b :: pdecode bs := by
  rw [pdecode.eq_def]
  split
  · rename_i heq
    injection heq with h1 _
    exact absurd h1 hb
  · rename_i heq
    injection heq with h1 h2
    subst h1
    subst h2
    rfl
  · rename_i heq
    exact List.noConfusion heq

theorem pdecode_esc {h1 h2 : Nat} {bs : List Nat}
    (hx : (isHexB h1 && isHexB h2) = true) :
    pdecode (37 :: h1 :: h2 :: bs) = (16 * hexValB h1 + hexValB h2) :: pdecode bs := by
  simp [pdecode, hx]

theorem pquote_bytes_lt {bs : List Nat} (h : ∀ b ∈ bs, b < 256) :
    ∀ b ∈ pquote bs, b < 256 := by
  induction bs with
  | nil => simp [pquote]
  | cons b bs ih =>
    have hb : b < 256 := h b (by simp)
    have hrest : ∀ x ∈ bs, x < 256 := fun x hx => h x (by simp [hx])
    intro x hx
    by_cases hs : isUnres b
    · simp only [pquote, hs, if_true, List.mem_cons] at hx
      rcases hx with rfl | hx
      · exact hb
      · exact ih hrest x hx
    · simp only [pquote, hs, if_false, Bool.false_eq_true, List.mem_cons] at hx
      rcases hx with rfl | hx
      · omega
      · rcases hx with rfl | hx
        · have : b / 16 < 16 := by omega
          simp only [hexDigU]; split <;> omega
        · rcases hx with rfl | hx
          · have : b % 16 < 16 := by omega
            simp only [hexDigU]; split <;> omega
          · exact ih hrest x hx

theorem pdecode_pquote {bs : List Nat} (h : ∀ b ∈ bs, b < 256) :
    pdecode (pquote bs) = bs := by
  induction bs with
  | nil => rfl
  | cons b bs ih =>
    have hb : b < 256 := h b (by simp)
    have hrest : ∀ x ∈ bs, x < 256 := fun x hx => h x (by simp [hx])
    by_cases hs : isUnres b
    · have hne : b ≠ 37 := by
        intro hb37; subst hb37; simp [isUnres] at hs
      rw [pquote, if_pos hs, pdecode_cons hne, ih hrest]
    · have h1 : b / 16 < 16 := by omega
      have h2 : b % 16 < 16 := by omega
      obtain ⟨hx1, hv1⟩ := hexDigU_isHex h1
      obtain ⟨hx2, hv2⟩ := hexDigU_isHex h2
      rw [pquote, if_neg hs, pdecode_esc (by rw [hx1, hx2]; rfl), hv1, hv2, ih hrest]
      congr 1
      omega

theorem utf8Char_bytes_lt (c : Char) : ∀ b ∈ utf8Char c, b < 256 := by
  have hv : c.toNat < 0xd800 ∨ (0xdfff < c.toNat ∧ c.toNat < 0x110000) := c.valid
  intro b hb
  simp only [utf8Char] at hb
  split at hb
  · simp only [List.mem_singleton] at hb; omega
  · split at hb
    · simp only [List.mem_cons, List.mem_singleton] at hb
      rcases hb with rfl | rfl | h
      · omega
      · omega
      · exact absurd h (List.not_mem_nil b)
    · split at hb
      · simp only [List.mem_cons, List.mem_singleton] at hb
        rcases hb with rfl | rfl | rfl | h
        · omega
        · omega
        · omega
        · exact absurd h (List.not_mem_nil b)
      · simp only [List.mem_cons, List.mem_singleton] at hb
        rcases hb with rfl | rfl | rfl | rfl | h
        · omega
        · omega
        · omega
        · omega
        · exact absurd h (List.not_mem_nil b)

theorem utf8Encode_cons (c : Char) (cs : List Char) :
    utf8Encode (c :: cs) = utf8Char c ++ utf8Encode cs := rfl

theorem utf8Encode_bytes_lt (cs : List Char) : ∀ b ∈ utf8Encode cs, b < 256 := by
  induction cs with
  | nil => simp [utf8Encode]
  | cons c cs ih =>
    intro b hb
    rw [utf8Encode_cons, List.mem_append] at hb
    rcases hb with h | h
    · exact utf8Char_bytes_lt c b h
    · exact ih b h

theorem utf8Decode_encode (cs : List Char) : utf8Decode (utf8Encode cs) = some cs := by
  induction cs with
  | nil => rfl
  | cons c cs ih =>
    have hv : c.toNat < 0xd800 ∨ (0xdfff < c.toNat ∧ c.toNat < 0x110000) := c.valid
    rw [utf8Encode_cons]
    by_cases h1 : c.toNat < 0x80
    · rw [show utf8Char c = [c.toNat] by simp [utf8Char, h1]]
      simp only [List.cons_append, List.nil_append]
      rw [utf8Decode]
      rw [if_pos h1, ih, Option.map_some', Char.ofNat_toNat]
    · by_cases h2 : c.toNat < 0x800
      · rw [show utf8Char c = [0xC0 + c.toNat / 64, 0x80 + c.toNat % 64] by
          simp [utf8Char, h1, h2]]
        simp only [List.cons_append, List.nil_append]
        rw [utf8Decode]
        rw [if_neg (by omega), if_neg (by omega), if_pos (by omega)]
        rw [utf8Dec2]
        rw [if_pos (by omega)]
        rw [show (0xC0 + c.toNat / 64 - 0xC0) * 64 + (0x80 + c.toNat % 64 - 0x80) = c.toNat by
          omega]
        rw [if_pos (by omega)]
        rw [ih, Option.map_some', Char.ofNat_toNat]
      · by_cases h3 : c.toNat < 0x10000
        · rw [show utf8Char c =
              [0xE0 + c.toNat / 4096, 0x80 + c.toNat / 64 % 64, 0x80 + c.toNat % 64] by
            simp [utf8Char, h1, h2, h3]]
          simp only [List.cons_append, List.nil_append]
          rw [utf8Decode]
          rw [if_neg (by omega), if_neg (by omega), if_neg (by omega), if_pos (by omega)]
          rw [utf8Dec3]
          rw [if_pos (by omega)]
          rw [show (0xE0 + c.toNat / 4096 - 0xE0) * 4096 + (0x80 + c.toNat / 64 % 64 - 0x80) * 64 +
              (0x80 + c.toNat % 64 - 0x80) = c.toNat by omega]
          rw [if_pos (by omega)]
          rw [ih, Option.map_some', Char.ofNat_toNat]
        · rw [show utf8Char c =
              [0xF0 + c.toNat / 0x40000, 0x80 + c.toNat / 4096 % 64, 0x80 + c.toNat / 64 % 64,
                0x80 + c.toNat % 64] by
            simp [utf8Char, h1, h2, h3]]
          simp only [List.cons_append, List.nil_append]
          rw [utf8Decode]
          rw [if_neg (by omega), if_neg (by omega), if_neg (by omega), if_neg (by omega),
            if_pos (by omega)]
          rw [utf8Dec4]
          rw [if_pos (by omega)]
          rw [show (0xF0 + c.toNat / 0x40000 - 0xF0) * 0x40000 +
              (0x80 + c.toNat / 4096 % 64 - 0x80) * 4096 + (0x80 + c.toNat / 64 % 64 - 0x80) * 64 +
              (0x80 + c.toNat % 64 - 0x80) = c.toNat by omega]
          rw [if_pos (by omega)]
          rw [ih, Option.map_some', Char.ofNat_toNat]

/-- C4: `url_encode_iri` is percent-encoding applied twice (each pass escaping
every byte outside the unreserved set), it is a total function with no error
case, it maps the empty string to the empty byte sequence, and percent-decoding
its output twice followed by UTF-8 decoding reproduces the input string's
characters exactly, for every input string (in particular strings containing
`:`, `/`, `#`, and spaces). -/
theorem C4_url_encode_iri_double_encode_roundtrip :
    url_encode_iri "" = [] ∧
    (∀ s : String, url_encode_iri s = pquote (pquote (utf8Encode s.data))) ∧
    (∀ s : String, utf8Decode (pdecode (pdecode (url_encode_iri s))) = some s.data) := by
  refine ⟨rfl, fun s => rfl, fun s => ?_⟩
  have h1 : ∀ b ∈ utf8Encode s.data, b < 256 := utf8Encode_bytes_lt _
  rw [url_encode_iri, pdecode_pquote (pquote_bytes_lt h1), pdecode_pquote h1,
    utf8Decode_encode]

theorem digitChar_isDigit {n : Nat} (h : n < 10) :
    isDigitC (digitChar n) = true ∧ digVal (digitChar n) = n := by
  revert n; decide

theorem parseNumCont_stop {a : Nat} {cs : List Char} (h : noDigitHead cs) :
    parseNumCont a cs = (a, cs) := by
  cases cs with
  | nil => rfl
  | cons c t =>
    rw [parseNumCont, if_neg h]

theorem parseNumCont_natReprAux :
    ∀ f n : Nat, n < f → ∀ (a : Nat) (cs : List Char),
      parseNumCont a (natReprAux f n ++ cs) =
        parseNumCont (a * 10 ^ (natReprAux f n).length + n) cs := by
  intro f
  induction f with
  | zero => intro n h; omega
  | succ f ihf =>
    intro n h a cs
    by_cases h10 : n < 10
    · rw [natReprAux, if_pos h10]
      obtain ⟨hd, hv⟩ := digitChar_isDigit h10
      rw [List.singleton_append, parseNumCont, if_pos hd, hv, List.length_singleton, pow_one]
    · rw [natReprAux, if_neg h10, List.append_assoc, List.singleton_append,
        ihf (n / 10) (by omega)]
      obtain ⟨hd, hv⟩ := digitChar_isDigit (show n % 10 < 10 by omega)
      rw [parseNumCont, if_pos hd, hv, List.length_append, List.length_singleton]
      have hacc : (a * 10 ^ (natReprAux f (n / 10)).length + n / 10) * 10 + n % 10
          = a * 10 ^ ((natReprAux f (n / 10)).length + 1) + n := by
        rw [pow_succ, ← Nat.mul_assoc]
        omega
      rw [hacc]

theorem parseNumCont_natRepr (n a : Nat) (cs : List Char) :
    parseNumCont a (natRepr n ++ cs) =
      parseNumCont (a * 10 ^ (natRepr n).length + n) cs :=
  parseNumCont_natReprAux (n + 1) n (by omega) a cs

theorem natReprAux_head :
    ∀ f n : Nat, n < f → ∃ c t, natReprAux f n = c :: t ∧ isDigitC c = true := by
  intro f
  induction f with
  | zero => intro n h; omega
  | succ f ihf =>
    intro n h
    by_cases h10 : n < 10
    · exact ⟨digitChar n, [], by rw [natReprAux, if_pos h10], (digitChar_isDigit h10).1⟩
    · obtain ⟨c, t, heq, hd⟩ := ihf (n / 10) (by omega)
      exact ⟨c, t ++ [digitChar (n % 10)],
        by rw [natReprAux, if_neg h10, heq, List.cons_append], hd⟩

theorem natRepr_head (n : Nat) : ∃ c t, natRepr n = c :: t ∧ isDigitC c = true :=
  natReprAux_head (n + 1) n (by omega)

theorem isDigitC_ne {c : Char} (h : isDigitC c = true) :
    c ≠ 'n' ∧ c ≠ 't' ∧ c ≠ 'f' ∧ c ≠ '"' ∧ c ≠ '[' ∧ c ≠ '\x7b' ∧ c ≠ '-' ∧
      c ≠ ' ' ∧ c ≠ '\n' ∧ c ≠ '\t' ∧ c ≠ '\r' ∧ c ≠ ']' ∧ c ≠ '\x7d' := by
  refine ⟨?_, ?_, ?_, ?_, ?_, ?_, ?_, ?_, ?_, ?_, ?_, ?_, ?_⟩ <;>
    (intro heq; rw [heq] at h; exact absurd h (by decide))

theorem skipWs_ws {c : Char} (h : c = ' ' ∨ c = '\n' ∨ c = '\t' ∨ c = '\r')
    (cs : List Char) : skipWs (c :: cs) = skipWs cs := by
  rw [skipWs, if_pos h]

theorem skipWs_nonws {c : Char} (h : ¬ (c = ' ' ∨ c = '\n' ∨ c = '\t' ∨ c = '\r'))
    (cs : List Char) : skipWs (c :: cs) = c :: cs := by
  rw [skipWs, if_neg h]

theorem skipWs_spacesL (n : Nat) (cs : List Char) :
    skipWs (spacesL n ++ cs) = skipWs cs := by
  induction n with
  | zero => rfl
  | succ n ih =>
    rw [spacesL, List.replicate_succ, List.cons_append, skipWs_ws (by simp)]
    exact ih

theorem escList_cons (c : Char) (t : List Char) :
    escList (c :: t) = jsonEscChar c ++ escList t := rfl

theorem parseJStr_close (acc cs : List Char) :
    parseJStr acc ('"' :: cs) = some (⟨acc.reverse⟩, cs) := rfl

theorem parseJStr_raw {c : Char} (h1 : c ≠ '"') (h2 : c ≠ '\\')
    (acc cs : List Char) : parseJStr acc (c :: cs) = parseJStr (c :: acc) cs := by
  rw [parseJStr.eq_def]
  split
  · rename_i heq
    injection heq with ha _
    exact absurd ha h1
  · rename_i heq
    injection heq with ha _
    exact absurd ha h2
  · rename_i heq
    injection heq with ha _
    exact absurd ha h2
  · rename_i heq
    injection heq with ha hb
    subst ha
    subst hb
    rfl
  · rename_i heq
    exact List.noConfusion heq

theorem hexDigL_isHex {n : Nat} (h : n < 16) :
    isHexC (hexDigL n) = true ∧ hexValC (hexDigL n) = n := by
  revert n; decide

theorem hex4Val_hex4 {n : Nat} (h : n < 0x10000) :
    hex4Val (hexDigL (n / 4096 % 16)) (hexDigL (n / 256 % 16)) (hexDigL (n / 16 % 16))
      (hexDigL (n % 16)) = n := by
  rw [hex4Val, (hexDigL_isHex (by omega : n / 4096 % 16 < 16)).2,
    (hexDigL_isHex (by omega : n / 256 % 16 < 16)).2,
    (hexDigL_isHex (by omega : n / 16 % 16 < 16)).2,
    (hexDigL_isHex (by omega : n % 16 < 16)).2]
  omega

theorem hex4_isHexAll (n : Nat) :
    (isHexC (hexDigL (n / 4096 % 16)) && isHexC (hexDigL (n / 256 % 16)) &&
      isHexC (hexDigL (n / 16 % 16)) && isHexC (hexDigL (n % 16))) = true := by
  rw [(hexDigL_isHex (by omega : n / 4096 % 16 < 16)).1,
    (hexDigL_isHex (by omega : n / 256 % 16 < 16)).1,
    (hexDigL_isHex (by omega : n / 16 % 16 < 16)).1,
    (hexDigL_isHex (by omega : n % 16 < 16)).1]
  rfl

theorem parseJStr_u (acc : List Char) (a b c d : Char) (cs : List Char) :
    parseJStr acc ('\\' :: 'u' :: a :: b :: c :: d :: cs) =
      (if isHexC a && isHexC b && isHexC c && isHexC d then
        if 0xd800 ≤ hex4Val a b c d ∧ hex4Val a b c d < 0xdc00 then
          parseJStrLow (hex4Val a b c d) acc cs
        else if hex4Val a b c d < 0xd800 ∨ 0xe000 ≤ hex4Val a b c d then
          parseJStr (Char.ofNat (hex4Val a b c d) :: acc) cs
        else none
      else none) := rfl

theorem parseJStrLow_u (hi : Nat) (acc : List Char) (a b c d : Char) (cs : List Char) :
    parseJStrLow hi acc ('\\' :: 'u' :: a :: b :: c :: d :: cs) =
      (if isHexC a && isHexC b && isHexC c && isHexC d then
        if 0xdc00 ≤ hex4Val a b c d ∧ hex4Val a b c d < 0xe000 then
          parseJStr (Char.ofNat (0x10000 + (hi - 0xd800) * 0x400 + (hex4Val a b c d - 0xdc00)) :: acc) cs
        else none
      else none) := rfl

theorem parseJStr_escChar (c : Char) (acc cs : List Char) :
    parseJStr acc (jsonEscChar c ++ cs) = parseJStr (c :: acc) cs := by
  have hv : c.toNat < 0xd800 ∨ (0xdfff < c.toNat ∧ c.toNat < 0x110000) := c.valid
  by_cases h1 : c = '"'
  · subst h1; rfl
  · by_cases h2 : c = '\\'
    · subst h2; rfl
    · by_cases h3 : c = '\x08'
      · subst h3; rfl
      · by_cases h4 : c = '\t'
        · subst h4; rfl
        · by_cases h5 : c = '\n'
          · subst h5; rfl
          · by_cases h6 : c = '\x0c'
            · subst h6; rfl
            · by_cases h7 : c = '\r'
              · subst h7; rfl
              · by_cases h8 : c.toNat < 0x20 ∨ (0x7f ≤ c.toNat ∧ c.toNat < 0x10000)
                · rw [show jsonEscChar c = '\\' :: 'u' :: hex4 c.toNat by
                    rw [jsonEscChar, if_neg h1, if_neg h2, if_neg h3, if_neg h4, if_neg h5,
                      if_neg h6, if_neg h7, if_pos h8]]
                  rw [hex4, List.cons_append, List.cons_append, List.cons_append,
                    List.cons_append, List.cons_append, List.singleton_append]
                  rw [parseJStr_u, if_pos (hex4_isHexAll _),
                    hex4Val_hex4 (by omega : c.toNat < 0x10000),
                    if_neg (by omega), if_pos (by omega), Char.ofNat_toNat]
                · by_cases h9 : 0x10000 ≤ c.toNat
                  · rw [show jsonEscChar c =
                        '\\' :: 'u' :: hex4 (0xd800 + (c.toNat - 0x10000) / 0x400) ++
                          '\\' :: 'u' :: hex4 (0xdc00 + (c.toNat - 0x10000) % 0x400) by
                      rw [jsonEscChar, if_neg h1, if_neg h2, if_neg h3, if_neg h4, if_neg h5,
                        if_neg h6, if_neg h7, if_neg h8, if_pos h9]]
                    rw [hex4, hex4]
                    simp only [List.cons_append, List.nil_append, List.append_assoc]
                    rw [parseJStr_u, if_pos (hex4_isHexAll _),
                      hex4Val_hex4 (by omega : 0xd800 + (c.toNat - 0x10000) / 0x400 < 0x10000),
                      if_pos (by omega)]
                    rw [parseJStrLow_u, if_pos (hex4_isHexAll _),
                      hex4Val_hex4 (by omega : 0xdc00 + (c.toNat - 0x10000) % 0x400 < 0x10000),
                      if_pos (by omega)]
                    rw [show 0x10000 + (0xd800 + (c.toNat - 0x10000) / 0x400 - 0xd800) * 0x400 +
                        (0xdc00 + (c.toNat - 0x10000) % 0x400 - 0xdc00) = c.toNat by omega,
                      Char.ofNat_toNat]
                  · rw [show jsonEscChar c = [c] by
                      rw [jsonEscChar, if_neg h1, if_neg h2, if_neg h3, if_neg h4, if_neg h5,
                        if_neg h6, if_neg h7, if_neg h8, if_neg h9]]
                    rw [List.singleton_append, parseJStr_raw h1 h2]

theorem parseJStr_escList (l : List Char) : ∀ acc rest : List Char,
    parseJStr acc (escList l ++ '"' :: rest) = some (⟨acc.reverse ++ l⟩, rest) := by
  induction l with
  | nil =>
    intro acc rest
    rw [show escList [] = [] from rfl, List.nil_append, parseJStr_close, List.append_nil]
  | cons c t ih =>
    intro acc rest
    rw [escList_cons, List.append_assoc, parseJStr_escChar, ih]
    rw [List.reverse_cons, List.append_assoc, List.singleton_append]

theorem mkData_eq (s : String) : (⟨s.data⟩ : String) = s := by
  cases s; rfl

theorem parseJStr_quoted (s : String) (rest : List Char) :
    parseJStr [] (escList s.data ++ '"' :: rest) = some (s, rest) := by
  rw [parseJStr_escList, show (([] : List Char).reverse ++ s.data) = s.data by simp,
    mkData_eq]

theorem goodHead_digit {c : Char} (h : isDigitC c = true) : goodHead c := by
  obtain ⟨_, _, _, _, _, _, _, h8, h9, h10, h11, h12, h13⟩ := isDigitC_ne h
  exact ⟨by rintro (rfl | rfl | rfl | rfl) <;> simp_all, h12, h13⟩

theorem goodHead_of (c : Char)
    (h : (c ≠ ' ' ∧ c ≠ '\n' ∧ c ≠ '\t' ∧ c ≠ '\r') ∧ c ≠ ']' ∧ c ≠ '\x7d') : goodHead c :=
  ⟨by rintro (rfl | rfl | rfl | rfl) <;> simp_all, h.2.1, h.2.2⟩

theorem dumpsV_head (d : Nat) (j : Json) : ∃ c t, dumpsV d j = c :: t ∧ goodHead c := by
  cases j with
  | null => exact ⟨'n', _, rfl, goodHead_of _ (by decide)⟩
  | boolean b =>
    cases b with
    | true => exact ⟨'t', _, rfl, goodHead_of _ (by decide)⟩
    | false => exact ⟨'f', _, rfl, goodHead_of _ (by decide)⟩
  | num n =>
    by_cases hn : n < 0
    · exact ⟨'-', _, by rw [show dumpsV d (.num n) = intRepr n from rfl, intRepr, if_pos hn],
        goodHead_of _ (by decide)⟩
    · obtain ⟨c, t, heq, hd⟩ := natRepr_head n.toNat
      exact ⟨c, t, by rw [show dumpsV d (.num n) = intRepr n from rfl, intRepr, if_neg hn, heq],
        goodHead_digit hd⟩
  | str s => exact ⟨'"', _, rfl, goodHead_of _ (by decide)⟩
  | arr xs =>
    cases xs with
    | nil => exact ⟨'[', _, rfl, goodHead_of _ (by decide)⟩
    | cons x t => exact ⟨'[', _, rfl, goodHead_of _ (by decide)⟩
  | obj kvs =>
    cases kvs with
    | nil => exact ⟨'\x7b', _, rfl, goodHead_of _ (by decide)⟩
    | cons k v t => exact ⟨'\x7b', _, rfl, goodHead_of _ (by decide)⟩

theorem noDigitHead_dumpsArr (dd : Nat) (ys : JArr) (l : List Char) :
    noDigitHead (dumpsArr dd ys ++ '\n' :: l) := by
  cases ys with
  | nil =>
    rw [show dumpsArr dd .nil = [] from rfl, List.nil_append]
    exact (by decide : ¬ isDigitC '\n' = true)
  | cons y t =>
    rw [dumpsArr, List.cons_append]
    exact (by decide : ¬ isDigitC ',' = true)

theorem noDigitHead_dumpsObj (dd : Nat) (ys : JObj) (l : List Char) :
    noDigitHead (dumpsObj dd ys ++ '\n' :: l) := by
  cases ys with
  | nil =>
    rw [show dumpsObj dd .nil = [] from rfl, List.nil_append]
    exact (by decide : ¬ isDigitC '\n' = true)
  | cons k v t =>
    rw [dumpsObj, List.cons_append]
    exact (by decide : ¬ isDigitC ',' = true)

theorem parseValue_congr (fuel : Nat) (cs cs' : List Char) (h : skipWs cs = skipWs cs') :
    parseValue fuel cs = parseValue fuel cs' := by
  rw [parseValue.eq_def, parseValue.eq_def, h]

theorem szV_pos (j : Json) : 1 ≤ szV j := by
  cases j <;> simp [szV]

theorem szA_pos (xs : JArr) : 1 ≤ szA xs := by
  cases xs with
  | nil => simp [szA]
  | cons x t => rw [szA]; omega

theorem szO_pos (kvs : JObj) : 1 ≤ szO kvs := by
  cases kvs with
  | nil => simp [szO]
  | cons k v t => rw [szO]; omega

mutual

theorem parse_dumpsV (j : Json) : ∀ (fuel d : Nat) (rest : List Char),
    szV j ≤ fuel → noDigitHead rest →
    parseValue fuel (dumpsV d j ++ rest) = some (j, rest) := by
  cases j with
  | null =>
    intro fuel d rest hsz hnd
    obtain ⟨f, rfl⟩ : ∃ f, fuel = f + 1 := ⟨fuel - 1, by have := szV_pos .null; omega⟩
    rw [show dumpsV d .null = ['n', 'u', 'l', 'l'] from rfl]
    simp only [List.cons_append, List.nil_append]
    rw [parseValue.eq_def]
    dsimp only
    rw [skipWs_nonws (by decide)]
    dsimp only
    rw [if_pos rfl, if_pos (show ('u' :: 'l' :: 'l' :: rest).take 3 = ['u', 'l', 'l'] from rfl)]
    rfl
  | boolean b =>
    intro fuel d rest hsz hnd
    obtain ⟨f, rfl⟩ : ∃ f, fuel = f + 1 := ⟨fuel - 1, by have := szV_pos (.boolean b); omega⟩
    cases b with
    | true =>
      rw [show dumpsV d (.boolean true) = ['t', 'r', 'u', 'e'] from rfl]
      simp only [List.cons_append, List.nil_append]
      rw [parseValue.eq_def]
      dsimp only
      rw [skipWs_nonws (by decide)]
      dsimp only
      rw [if_neg (by decide), if_pos rfl,
        if_pos (show ('r' :: 'u' :: 'e' :: rest).take 3 = ['r', 'u', 'e'] from rfl)]
      rfl
    | false =>
      rw [show dumpsV d (.boolean false) = ['f', 'a', 'l', 's', 'e'] from rfl]
      simp only [List.cons_append, List.nil_append]
      rw [parseValue.eq_def]
      dsimp only
      rw [skipWs_nonws (by decide)]
      dsimp only
      rw [if_neg (by decide), if_neg (by decide), if_pos rfl,
        if_pos (show ('a' :: 'l' :: 's' :: 'e' :: rest).take 4 = ['a', 'l', 's', 'e'] from rfl)]
      rfl
  | num n =>
    intro fuel d rest hsz hnd
    obtain ⟨f, rfl⟩ : ∃ f, fuel = f + 1 := ⟨fuel - 1, by have := szV_pos (.num n); omega⟩
    by_cases hn : n < 0
    · obtain ⟨c, t, heq, hd⟩ := natRepr_head n.natAbs
      rw [show dumpsV d (.num n) = intRepr n from rfl, intRepr, if_pos hn]
      simp only [List.cons_append]
      rw [parseValue.eq_def]
      dsimp only
      rw [skipWs_nonws (by decide)]
      dsimp only
      rw [if_neg (by decide), if_neg (by decide), if_neg (by decide), if_neg (by decide),
        if_neg (by decide), if_neg (by decide), if_pos rfl]
      rw [heq, List.cons_append, parseNegTok, if_pos hd]
      have key : parseNumCont (digVal c) (t ++ rest) = (n.natAbs, rest) := by
        have h0 : parseNumCont 0 (natRepr n.natAbs ++ rest) = (n.natAbs, rest) := by
          rw [parseNumCont_natRepr, Nat.zero_mul, Nat.zero_add, parseNumCont_stop hnd]
        rw [heq, List.cons_append, parseNumCont, if_pos hd,
          show 0 * 10 + digVal c = digVal c by omega] at h0
        exact h0
      rw [key]
      rw [show (-(n.natAbs : Int)) = n by omega]
    · obtain ⟨c, t, heq, hd⟩ := natRepr_head n.toNat
      obtain ⟨hne1, hne2, hne3, hne4, hne5, hne6, hne7, hw1, hw2, hw3, hw4, _, _⟩ :=
        isDigitC_ne hd
      rw [show dumpsV d (.num n) = intRepr n from rfl, intRepr, if_neg hn, heq,
        List.cons_append]
      rw [parseValue.eq_def]
      dsimp only
      rw [skipWs_nonws (not_or.mpr ⟨hw1, not_or.mpr ⟨hw2, not_or.mpr ⟨hw3, hw4⟩⟩⟩)]
      dsimp only
      rw [if_neg hne1, if_neg hne2, if_neg hne3, if_neg hne4, if_neg hne5, if_neg hne6,
        if_neg hne7, if_pos hd, parsePosTok]
      have key : parseNumCont (digVal c) (t ++ rest) = (n.toNat, rest) := by
        have h0 : parseNumCont 0 (natRepr n.toNat ++ rest) = (n.toNat, rest) := by
          rw [parseNumCont_natRepr, Nat.zero_mul, Nat.zero_add, parseNumCont_stop hnd]
        rw [heq, List.cons_append, parseNumCont, if_pos hd,
          show 0 * 10 + digVal c = digVal c by omega] at h0
        exact h0
      rw [key]
      rw [show ((n.toNat : Nat) : Int) = n by omega]
  | str s =>
    intro fuel d rest hsz hnd
    obtain ⟨f, rfl⟩ : ∃ f, fuel = f + 1 := ⟨fuel - 1, by have := szV_pos (.str s); omega⟩
    rw [show dumpsV d (.str s) = jsonQuoteStr s from rfl, jsonQuoteStr]
    simp only [List.cons_append, List.append_assoc, List.singleton_append, List.nil_append]
    rw [parseValue.eq_def]
    dsimp only
    rw [skipWs_nonws (by decide)]
    dsimp only
    rw [if_neg (by decide), if_neg (by decide), if_neg (by decide), if_pos rfl]
    simp only [List.nil_append, parseStrTok, parseJStr_quoted]
    rfl
  | arr xs =>
    cases xs with
    | nil =>
      intro fuel d rest hsz hnd
      obtain ⟨f, rfl⟩ : ∃ f, fuel = f + 1 := ⟨fuel - 1, by have := szV_pos (.arr .nil); omega⟩
      rw [show dumpsV d (.arr .nil) = ['[', ']'] from rfl]
      simp only [List.cons_append, List.nil_append]
      rw [parseValue.eq_def]
      dsimp only
      rw [skipWs_nonws (by decide)]
      dsimp only
      rw [if_neg (by decide), if_neg (by decide), if_neg (by decide), if_neg (by decide),
        if_pos rfl]
      rw [parseArrStart.eq_def, skipWs_nonws (by decide)]
      rfl
    | cons x xs =>
      intro fuel d rest hsz hnd
      obtain ⟨f, rfl⟩ : ∃ f, fuel = f + 1 :=
        ⟨fuel - 1, by have := szV_pos (.arr (.cons x xs)); omega⟩
      have hszx : szV x ≤ f := by rw [szV, szA] at hsz; omega
      have hszxs : szA xs ≤ f := by rw [szV, szA] at hsz; omega
      rw [show dumpsV d (.arr (.cons x xs)) =
        '[' :: '\n' :: spacesL (2 * (d + 1)) ++ dumpsV (d + 1) x ++ dumpsArr (d + 1) xs ++
          '\n' :: spacesL (2 * d) ++ [']'] from rfl]
      simp only [List.cons_append, List.append_assoc, List.singleton_append, List.nil_append]
      rw [parseValue.eq_def]
      dsimp only
      rw [skipWs_nonws (by decide)]
      dsimp only
      rw [if_neg (by decide), if_neg (by decide), if_neg (by decide), if_neg (by decide),
        if_pos rfl]
      rw [parseArrStart.eq_def]
      obtain ⟨ch, ct, hch, hgh⟩ := dumpsV_head (d + 1) x
      rw [show skipWs ('\n' :: (spacesL (2 * (d + 1)) ++ (dumpsV (d + 1) x ++
          (dumpsArr (d + 1) xs ++ '\n' :: (spacesL (2 * d) ++ ']' :: rest))))) =
          ch :: (ct ++ (dumpsArr (d + 1) xs ++ '\n' :: (spacesL (2 * d) ++ ']' :: rest))) by
        rw [skipWs_ws (by decide), skipWs_spacesL, hch, List.cons_append, skipWs_nonws hgh.1]]
      have hv : parseValue f ('\n' :: (spacesL (2 * (d + 1)) ++ (dumpsV (d + 1) x ++
          (dumpsArr (d + 1) xs ++ '\n' :: (spacesL (2 * d) ++ ']' :: rest))))) =
          some (x, dumpsArr (d + 1) xs ++ '\n' :: (spacesL (2 * d) ++ ']' :: rest)) := by
        have h1 : skipWs ('\n' :: (spacesL (2 * (d + 1)) ++ (dumpsV (d + 1) x ++
            (dumpsArr (d + 1) xs ++ '\n' :: (spacesL (2 * d) ++ ']' :: rest))))) =
            skipWs (dumpsV (d + 1) x ++ (dumpsArr (d + 1) xs ++ '\n' ::
              (spacesL (2 * d) ++ ']' :: rest))) := by
          rw [skipWs_ws (by decide), skipWs_spacesL]
        rw [parseValue_congr f _ _ h1]
        exact parse_dumpsV x f (d + 1) _ hszx (noDigitHead_dumpsArr _ _ _)
      have ha : parseArrRest f (dumpsArr (d + 1) xs ++ '\n' :: (spacesL (2 * d) ++ ']' :: rest)) =
          some (xs, rest) := parse_dumpsArr xs f (d + 1) (2 * d) rest hszxs
      split
      · rename_i heq
        injection heq with h1 _
        exact absurd h1 hgh.2.1
      · rw [parseArrFirst.eq_def, hv]
        simp only [Option.bind_eq_bind, Option.some_bind]
        rw [ha]
        rfl
  | obj kvs =>
    cases kvs with
    | nil =>
      intro fuel d rest hsz hnd
      obtain ⟨f, rfl⟩ : ∃ f, fuel = f + 1 := ⟨fuel - 1, by have := szV_pos (.obj .nil); omega⟩
      rw [show dumpsV d (.obj .nil) = ['\x7b', '\x7d'] from rfl]
      simp only [List.cons_append, List.nil_append]
      rw [parseValue.eq_def]
      dsimp only
      rw [skipWs_nonws (by decide)]
      dsimp only
      rw [if_neg (by decide), if_neg (by decide), if_neg (by decide), if_neg (by decide),
        if_neg (by decide), if_pos rfl]
      rw [parseObjStart.eq_def, skipWs_nonws (by decide)]
      rfl
    | cons k v t =>
      intro fuel d rest hsz hnd
      obtain ⟨f, rfl⟩ : ∃ f, fuel = f + 1 :=
        ⟨fuel - 1, by have := szV_pos (.obj (.cons k v t)); omega⟩
      have hszv : szV v ≤ f := by rw [szV, szO] at hsz; omega
      have hszt : szO t ≤ f := by rw [szV, szO] at hsz; omega
      rw [show dumpsV d (.obj (.cons k v t)) =
        '\x7b' :: '\n' :: spacesL (2 * (d + 1)) ++ jsonQuoteStr k ++ ':' :: ' ' ::
          dumpsV (d + 1) v ++ dumpsObj (d + 1) t ++ '\n' :: spacesL (2 * d) ++ ['\x7d']
          from rfl]
      simp only [List.cons_append, List.append_assoc, List.singleton_append, List.nil_append]
      rw [parseValue.eq_def]
      dsimp only
      rw [skipWs_nonws (by decide)]
      dsimp only
      rw [if_neg (by decide), if_neg (by decide), if_neg (by decide), if_neg (by decide),
        if_neg (by decide), if_pos rfl]
      rw [parseObjStart.eq_def]
      rw [show skipWs ('\n' :: (spacesL (2 * (d + 1)) ++ (jsonQuoteStr k ++ (':' :: (' ' ::
          (dumpsV (d + 1) v ++ (dumpsObj (d + 1) t ++ '\n' :: (spacesL (2 * d) ++
            '\x7d' :: rest)))))))) =
          '"' :: (escList k.data ++ ('"' :: (':' :: (' ' :: (dumpsV (d + 1) v ++
            (dumpsObj (d + 1) t ++ '\n' :: (spacesL (2 * d) ++ '\x7d' :: rest))))))) by
        rw [skipWs_ws (by decide), skipWs_spacesL, jsonQuoteStr]
        simp only [List.cons_append, List.append_assoc, List.singleton_append, List.nil_append]
        rw [skipWs_nonws (by decide)]]
      have hkv : parseObjEntryKV f ('\n' :: (spacesL (2 * (d + 1)) ++ (jsonQuoteStr k ++
          (':' :: (' ' :: (dumpsV (d + 1) v ++ (dumpsObj (d + 1) t ++ '\n' ::
            (spacesL (2 * d) ++ '\x7d' :: rest)))))))) =
          some (k, v, dumpsObj (d + 1) t ++ '\n' :: (spacesL (2 * d) ++ '\x7d' :: rest)) :=
        parse_dumpsKV v f (2 * (d + 1)) (d + 1) k _ hszv (noDigitHead_dumpsObj _ _ _)
      have hobj : parseObjRest f (dumpsObj (d + 1) t ++ '\n' :: (spacesL (2 * d) ++
          '\x7d' :: rest)) = some (t, rest) := parse_dumpsObj t f (d + 1) (2 * d) rest hszt
      split
      · rename_i heq
        injection heq with h1 _
        exact absurd h1 (by decide)
      · rw [hkv]
        simp only [Option.bind_eq_bind, Option.some_bind]
        rw [hobj]
        rfl

theorem parse_dumpsArr (xs : JArr) : ∀ (fuel dd sp : Nat) (rest : List Char),
    szA xs ≤ fuel →
    parseArrRest fuel (dumpsArr dd xs ++ '\n' :: (spacesL sp ++ ']' :: rest)) =
      some (xs, rest) := by
  cases xs with
  | nil =>
    intro fuel dd sp rest hsz
    obtain ⟨f, rfl⟩ : ∃ f, fuel = f + 1 := ⟨fuel - 1, by have := szA_pos .nil; omega⟩
    rw [show dumpsArr dd .nil = [] from rfl, List.nil_append]
    rw [parseArrRest.eq_def]
    dsimp only
    rw [skipWs_ws (by decide), skipWs_spacesL, skipWs_nonws (by decide)]
    rfl
  | cons y ys =>
    intro fuel dd sp rest hsz
    obtain ⟨f, rfl⟩ : ∃ f, fuel = f + 1 := ⟨fuel - 1, by have := szA_pos (.cons y ys); omega⟩
    have hszy : szV y ≤ f := by rw [szA] at hsz; omega
    have hszys : szA ys ≤ f := by rw [szA] at hsz; omega
    rw [show dumpsArr dd (.cons y ys) =
      ',' :: '\n' :: spacesL (2 * dd) ++ dumpsV dd y ++ dumpsArr dd ys from rfl]
    simp only [List.cons_append, List.append_assoc]
    rw [parseArrRest.eq_def]
    dsimp only
    rw [skipWs_nonws (by decide)]
    have hv : parseValue f ('\n' :: (spacesL (2 * dd) ++ (dumpsV dd y ++ (dumpsArr dd ys ++
        '\n' :: (spacesL sp ++ ']' :: rest))))) =
        some (y, dumpsArr dd ys ++ '\n' :: (spacesL sp ++ ']' :: rest)) := by
      have h1 : skipWs ('\n' :: (spacesL (2 * dd) ++ (dumpsV dd y ++ (dumpsArr dd ys ++
          '\n' :: (spacesL sp ++ ']' :: rest))))) =
          skipWs (dumpsV dd y ++ (dumpsArr dd ys ++ '\n' :: (spacesL sp ++ ']' :: rest))) := by
        rw [skipWs_ws (by decide), skipWs_spacesL]
      rw [parseValue_congr f _ _ h1]
      exact parse_dumpsV y f dd _ hszy (noDigitHead_dumpsArr _ _ _)
    have ha : parseArrRest f (dumpsArr dd ys ++ '\n' :: (spacesL sp ++ ']' :: rest)) =
        some (ys, rest) := parse_dumpsArr ys f dd sp rest hszys
    split
    · rename_i heq
      injection heq with h1 _
      exact absurd h1 (by decide)
    · rename_i heq
      injection heq with h1 h2
      subst h2
      rw [hv]
      simp only [Option.bind_eq_bind, Option.some_bind]
      rw [ha]
      rfl
    · rename_i hcon1 hcon2
      exact absurd rfl (hcon2 _)

theorem parse_dumpsObj (kvs : JObj) : ∀ (fuel dd sp : Nat) (rest : List Char),
    szO kvs ≤ fuel →
    parseObjRest fuel (dumpsObj dd kvs ++ '\n' :: (spacesL sp ++ '\x7d' :: rest)) =
      some (kvs, rest) := by
  cases kvs with
  | nil =>
    intro fuel dd sp rest hsz
    obtain ⟨f, rfl⟩ : ∃ f, fuel = f + 1 := ⟨fuel - 1, by have := szO_pos .nil; omega⟩
    rw [show dumpsObj dd .nil = [] from rfl, List.nil_append]
    rw [parseObjRest.eq_def]
    dsimp only
    rw [skipWs_ws (by decide), skipWs_spacesL, skipWs_nonws (by decide)]
    rfl
  | cons k v t =>
    intro fuel dd sp rest hsz
    obtain ⟨f, rfl⟩ : ∃ f, fuel = f + 1 := ⟨fuel - 1, by have := szO_pos (.cons k v t); omega⟩
    have hszv : szV v ≤ f := by rw [szO] at hsz; omega
    have hszt : szO t ≤ f := by rw [szO] at hsz; omega
    rw [show dumpsObj dd (.cons k v t) =
      ',' :: '\n' :: spacesL (2 * dd) ++ jsonQuoteStr k ++ ':' :: ' ' :: dumpsV dd v ++
        dumpsObj dd t from rfl]
    simp only [List.cons_append, List.append_assoc]
    rw [parseObjRest.eq_def]
    dsimp only
    rw [skipWs_nonws (by decide)]
    have hkv : parseObjEntryKV f ('\n' :: (spacesL (2 * dd) ++ (jsonQuoteStr k ++ (':' ::
        (' ' :: (dumpsV dd v ++ (dumpsObj dd t ++ '\n' :: (spacesL sp ++
          '\x7d' :: rest)))))))) =
        some (k, v, dumpsObj dd t ++ '\n' :: (spacesL sp ++ '\x7d' :: rest)) :=
      parse_dumpsKV v f (2 * dd) dd k _ hszv (noDigitHead_dumpsObj _ _ _)
    have hobj : parseObjRest f (dumpsObj dd t ++ '\n' :: (spacesL sp ++ '\x7d' :: rest)) =
        some (t, rest) := parse_dumpsObj t f dd sp rest hszt
    split
    · rename_i heq
      injection heq with h1 _
      exact absurd h1 (by decide)
    · rename_i heq
      injection heq with h1 h2
      subst h2
      rw [hkv]
      simp only [Option.bind_eq_bind, Option.some_bind]
      rw [hobj]
      rfl
    · rename_i hcon1 hcon2
      exact absurd rfl (hcon2 _)

theorem parse_dumpsKV (v : Json) : ∀ (fuel m dv : Nat) (k : String) (rest : List Char),
    szV v ≤ fuel → noDigitHead rest →
    parseObjEntryKV fuel ('\n' :: (spacesL m ++ (jsonQuoteStr k ++ (':' :: (' ' ::
      (dumpsV dv v ++ rest)))))) = some (k, v, rest) := by
  intro fuel m dv k rest hsz hnd
  rw [parseObjEntryKV.eq_def]
  rw [show skipWs ('\n' :: (spacesL m ++ (jsonQuoteStr k ++ (':' :: (' ' ::
      (dumpsV dv v ++ rest)))))) =
      '"' :: (escList k.data ++ ('"' :: (':' :: (' ' :: (dumpsV dv v ++ rest))))) by
    rw [skipWs_ws (by decide), skipWs_spacesL, jsonQuoteStr]
    simp only [List.cons_append, List.append_assoc, List.singleton_append, List.nil_append]
    rw [skipWs_nonws (by decide)]]
  have hval : parseColonValue fuel (':' :: (' ' :: (dumpsV dv v ++ rest))) =
      some (v, rest) := by
    rw [parseColonValue.eq_def, skipWs_nonws (by decide)]
    have hpv : parseValue fuel (' ' :: (dumpsV dv v ++ rest)) = some (v, rest) := by
      have h1 : skipWs (' ' :: (dumpsV dv v ++ rest)) = skipWs (dumpsV dv v ++ rest) := by
        rw [skipWs_ws (by decide)]
      rw [parseValue_congr fuel _ _ h1]
      exact parse_dumpsV v fuel dv rest hsz hnd
    split
    · rename_i heq
      injection heq with _ h2
      subst h2
      exact hpv
    · rename_i hcon1 hcon2
      exact absurd rfl (hcon2 _)
  split
  · rename_i heq
    injection heq with _ h2
    subst h2
    rw [parseJStr_quoted]
    simp only [Option.bind_eq_bind, Option.some_bind]
    rw [hval]
    rfl
  · rename_i hcon1 hcon2
    exact absurd rfl (hcon2 _)

end

mutual

theorem szV_le_dumps (j : Json) : ∀ d : Nat, szV j ≤ (dumpsV d j).length + 1 := by
  cases j with
  | null => intro d; rw [szV]; omega
  | boolean b => intro d; rw [szV]; omega
  | num n => intro d; rw [szV]; omega
  | str s => intro d; rw [szV]; omega
  | arr xs =>
    cases xs with
    | nil =>
      intro d
      rw [szV, szA, show dumpsV d (.arr .nil) = ['[', ']'] from rfl]
      simp
    | cons x t =>
      intro d
      have h1 := szV_le_dumps x (d + 1)
      have h2 := szA_le_dumps t (d + 1)
      rw [szV, szA, show dumpsV d (.arr (.cons x t)) =
        '[' :: '\n' :: spacesL (2 * (d + 1)) ++ dumpsV (d + 1) x ++ dumpsArr (d + 1) t ++
          '\n' :: spacesL (2 * d) ++ [']'] from rfl]
      simp only [List.length_append, List.length_cons, List.length_nil, spacesL,
        List.length_replicate]
      omega
  | obj kvs =>
    cases kvs with
    | nil =>
      intro d
      rw [szV, szO, show dumpsV d (.obj .nil) = ['\x7b', '\x7d'] from rfl]
      simp
    | cons k v t =>
      intro d
      have h1 := szV_le_dumps v (d + 1)
      have h2 := szO_le_dumps t (d + 1)
      rw [szV, szO, show dumpsV d (.obj (.cons k v t)) =
        '\x7b' :: '\n' :: spacesL (2 * (d + 1)) ++ jsonQuoteStr k ++ ':' :: ' ' ::
          dumpsV (d + 1) v ++ dumpsObj (d + 1) t ++ '\n' :: spacesL (2 * d) ++ ['\x7d']
          from rfl]
      simp only [List.length_append, List.length_cons, List.length_nil, spacesL,
        List.length_replicate]
      omega

theorem szA_le_dumps (xs : JArr) : ∀ d : Nat, szA xs ≤ (dumpsArr d xs).length + 1 := by
  cases xs with
  | nil => intro d; rw [szA, show dumpsArr d .nil = [] from rfl]; omega
  | cons y ys =>
    intro d
    have h1 := szV_le_dumps y d
    have h2 := szA_le_dumps ys d
    rw [szA, show dumpsArr d (.cons y ys) =
      ',' :: '\n' :: spacesL (2 * d) ++ dumpsV d y ++ dumpsArr d ys from rfl]
    simp only [List.length_append, List.length_cons, spacesL, List.length_replicate]
    omega

theorem szO_le_dumps (kvs : JObj) : ∀ d : Nat, szO kvs ≤ (dumpsObj d kvs).length + 1 := by
  cases kvs with
  | nil => intro d; rw [szO, show dumpsObj d .nil = [] from rfl]; omega
  | cons k v t =>
    intro d
    have h1 := szV_le_dumps v d
    have h2 := szO_le_dumps t d
    rw [szO, show dumpsObj d (.cons k v t) =
      ',' :: '\n' :: spacesL (2 * d) ++ jsonQuoteStr k ++ ':' :: ' ' :: dumpsV d v ++
        dumpsObj d t from rfl]
    simp only [List.length_append, List.length_cons, spacesL, List.length_replicate]
    omega

end

/-- Parsing the pretty-printed serialization of any JSON value recovers the
value exactly: `json.loads(json.dumps(j, indent=2)) == j`. -/
theorem jsonLoads_dumps (j : Json) : jsonLoads (jsonDumps j) = some j := by
  have hp : parseValue ((jsonDumps j).length + 1) (jsonDumps j).data = some (j, []) := by
    have hdata : (jsonDumps j).data = dumpsV 0 j := rfl
    have hlen : (jsonDumps j).length = (dumpsV 0 j).length := rfl
    rw [hdata, hlen]
    have h := parse_dumpsV j ((dumpsV 0 j).length + 1) 0 []
      (by have := szV_le_dumps j 0; omega) trivial
    rw [List.append_nil] at h
    exact h
  rw [jsonLoads, hp]
  rfl

/-- C1: the claim says `get_term_info`, on a successful response whose
embedded-terms list exists but is empty, returns a not-found string that
contains the requested id.  The code instead evaluates `terms[0]` on the
empty list, raising an uncaught `IndexError`; the not-found string (which
does contain the literal id) is returned only when the `terms` key is
absent.  The first conjunct evaluates the model at the failing input; the
second shows the not-found message of the neighbouring branch. -/
theorem C1_get_term_info_empty_terms_raises :
    get_term_info "DUO_0000017"
      (.success (.obj (jobj [("_embedded", .obj (jobj [("terms", .arr (jarr []))]))]))) =
      .error .indexError ∧
    get_term_info "DUO_0000017" (.success (.obj (jobj [("_embedded", .obj (jobj []))]))) =
      .ok (.text "Term with ID 'DUO_0000017' not found in OLS.") := by
  exact ⟨rfl, rfl⟩

/-- C2: every tool operation converts a transport/timeout fault and a
non-success HTTP status into an `.ok` result string `"Error <doing X>: "`
followed by the exception detail (so the string starts with `"Error "` and
names the failing operation), and never lets such a fault propagate. -/
theorem C2_http_errors_become_strings :
    ∀ (m : String) (rows size : Nat) (oid tid : String),
      (search_terms rows (.transportError m) =
          .ok (.text ("Error searching terms: " ++ m)) ∧
        search_terms rows (.statusError m) =
          .ok (.text ("Error searching terms: " ++ m))) ∧
      (get_ontology_info oid (.transportError m) =
          .ok (.text ("Error getting ontology info: " ++ m)) ∧
        get_ontology_info oid (.statusError m) =
          .ok (.text ("Error getting ontology info: " ++ m))) ∧
      (search_ontologies size (.transportError m) =
          .ok (.text ("Error searching ontologies: " ++ m)) ∧
        search_ontologies size (.statusError m) =
          .ok (.text ("Error searching ontologies: " ++ m))) ∧
      (get_term_info tid (.transportError m) =
          .ok (.text ("Error getting term info: " ++ m)) ∧
        get_term_info tid (.statusError m) =
          .ok (.text ("Error getting term info: " ++ m))) ∧
      (get_term_children size (.transportError m) =
          .ok (.text ("Error getting term children: " ++ m)) ∧
        get_term_children size (.statusError m) =
          .ok (.text ("Error getting term children: " ++ m))) ∧
      (get_term_ancestors size (.transportError m) =
          .ok (.text ("Error getting term ancestors: " ++ m)) ∧
        get_term_ancestors size (.statusError m) =
          .ok (.text ("Error getting term ancestors: " ++ m))) ∧
      (find_similar_terms size (.transportError m) =
          .ok (.text ("Error finding similar terms: " ++ m)) ∧
        find_similar_terms size (.statusError m) =
          .ok (.text ("Error finding similar terms: " ++ m))) ∧
      strStarts "Error ".data ("Error searching terms: " ++ m).data = true ∧
      strStarts "Error ".data ("Error getting ontology info: " ++ m).data = true ∧
      strStarts "Error ".data ("Error searching ontologies: " ++ m).data = true ∧
      strStarts "Error ".data ("Error getting term info: " ++ m).data = true ∧
      strStarts "Error ".data ("Error getting term children: " ++ m).data = true ∧
      strStarts "Error ".data ("Error getting term ancestors: " ++ m).data = true ∧
      strStarts "Error ".data ("Error finding similar terms: " ++ m).data = true := by
  intro m rows size oid tid
  exact ⟨⟨rfl, rfl⟩, ⟨rfl, rfl⟩, ⟨rfl, rfl⟩, ⟨rfl, rfl⟩, ⟨rfl, rfl⟩, ⟨rfl, rfl⟩, ⟨rfl, rfl⟩,
    rfl, rfl, rfl, rfl, rfl, rfl, rfl⟩

/-- C3: `search_terms` produces exactly the same result for a legacy
payload `⟨response: ⟨docs, numFound⟩⟩` as for the flattened payload
`⟨elements, totalElements⟩` with the same docs and declared count, for
every docs list, every declared `numFound` value, and every row cap. -/
theorem C3_search_terms_legacy_equivalence :
    ∀ (docs : JArr) (nf : Json) (rows : Nat),
      search_terms rows (.success (.obj (jobj [("response",
          .obj (jobj [("docs", .arr docs), ("numFound", nf)]))]))) =
        search_terms rows (.success (.obj (jobj [("elements", .arr docs),
          ("totalElements", nf)]))) := by
  intro docs nf rows
  rfl

theorem bindOk {e a b : Type} (x : a) (f : a → Except e b) :
    (do let y ← Except.ok x; f y) = f x := rfl

theorem jobjFind_hasKey {k : String} {v : Json} :
    ∀ kvs : JObj, jobjFind kvs k = some v → jobjHasKey kvs k = true
  | .nil, h => by simp [jobjFind] at h
  | .cons k' v' t, h => by
    rw [jobjFind] at h
    rw [jobjHasKey]
    by_cases hk : (k' == k) = true
    · rw [hk, Bool.true_or]
    · rw [if_neg hk] at h
      rw [jobjFind_hasKey t h, Bool.or_true]

theorem jobjGetD_of_find {k : String} {v : Json} (d : Json) :
    ∀ kvs : JObj, jobjFind kvs k = some v → jobjGetD kvs k d = v
  | .nil, h => by simp [jobjFind] at h
  | .cons k' v' t, h => by
    rw [jobjFind] at h
    rw [jobjGetD]
    by_cases hk : (k' == k) = true
    · rw [if_pos hk] at h
      rw [if_pos hk]
      exact Option.some_injective _ h
    · rw [if_neg hk] at h
      rw [if_neg hk]
      exact jobjGetD_of_find d t h

theorem buildItems_allObj :
    ∀ ys : JArr, allObjOk ys = true →
      ∃ items, buildItems ys = .ok items ∧ jarrLen items = jarrLen ys
  | .nil, _ => ⟨.nil, rfl, rfl⟩
  | .cons (.obj item) t, h => by
    rw [allObjOk, Bool.and_eq_true] at h
    obtain ⟨it, hit⟩ : ∃ it, formatItem item = .ok it := by
      cases hfi : formatItem item with
      | ok a => exact ⟨a, rfl⟩
      | error e => rw [hfi] at h; exact absurd h.1 (by simp [Except.isOk, Except.toBool])
    obtain ⟨items, hbuild, hlen⟩ := buildItems_allObj t h.2
    refine ⟨.cons it items, by rw [buildItems, hit, hbuild]; exact rfl, ?_⟩
    rw [jarrLen, jarrLen, hlen]
  | .cons .null t, h => by
    rw [show allObjOk (JArr.cons Json.null t) = false from rfl] at h
    exact Bool.noConfusion h
  | .cons (.boolean b) t, h => by
    rw [show allObjOk (JArr.cons (Json.boolean b) t) = false from rfl] at h
    exact Bool.noConfusion h
  | .cons (.num n) t, h => by
    rw [show allObjOk (JArr.cons (Json.num n) t) = false from rfl] at h
    exact Bool.noConfusion h
  | .cons (.str s) t, h => by
    rw [show allObjOk (JArr.cons (Json.str s) t) = false from rfl] at h
    exact Bool.noConfusion h
  | .cons (.arr xs) t, h => by
    rw [show allObjOk (JArr.cons (Json.arr xs) t) = false from rfl] at h
    exact Bool.noConfusion h

theorem buildItems_allItems :
    ∀ ys : JArr, allItemsOk ys = true → ∃ items, buildItems ys = .ok items
  | .nil, _ => ⟨.nil, rfl⟩
  | .cons (.obj item) t, h => by
    rw [allItemsOk, Bool.and_eq_true] at h
    obtain ⟨it, hit⟩ : ∃ it, formatItem item = .ok it := by
      cases hfi : formatItem item with
      | ok a => exact ⟨a, rfl⟩
      | error e => rw [hfi] at h; exact absurd h.1 (by simp [Except.isOk, Except.toBool])
    obtain ⟨items, hbuild⟩ := buildItems_allItems t h.2
    exact ⟨.cons it items, by rw [buildItems, hit, hbuild]; exact rfl⟩
  | .cons .null t, h => by
    rw [show allItemsOk (JArr.cons Json.null t) = allItemsOk t from rfl] at h
    obtain ⟨items, hb⟩ := buildItems_allItems t h
    exact ⟨items, by
      rw [show buildItems (JArr.cons Json.null t) = buildItems t from rfl, hb]⟩
  | .cons (.boolean b) t, h => by
    rw [show allItemsOk (JArr.cons (Json.boolean b) t) = allItemsOk t from rfl] at h
    obtain ⟨items, hb⟩ := buildItems_allItems t h
    exact ⟨items, by
      rw [show buildItems (JArr.cons (Json.boolean b) t) = buildItems t from rfl, hb]⟩
  | .cons (.num n) t, h => by
    rw [show allItemsOk (JArr.cons (Json.num n) t) = allItemsOk t from rfl] at h
    obtain ⟨items, hb⟩ := buildItems_allItems t h
    exact ⟨items, by
      rw [show buildItems (JArr.cons (Json.num n) t) = buildItems t from rfl, hb]⟩
  | .cons (.str s) t, h => by
    rw [show allItemsOk (JArr.cons (Json.str s) t) = allItemsOk t from rfl] at h
    obtain ⟨items, hb⟩ := buildItems_allItems t h
    exact ⟨items, by
      rw [show buildItems (JArr.cons (Json.str s) t) = buildItems t from rfl, hb]⟩
  | .cons (.arr xs) t, h => by
    rw [show allItemsOk (JArr.cons (Json.arr xs) t) = allItemsOk t from rfl] at h
    obtain ⟨items, hb⟩ := buildItems_allItems t h
    exact ⟨items, by
      rw [show buildItems (JArr.cons (Json.arr xs) t) = buildItems t from rfl, hb]⟩

theorem jarrLen_take : ∀ (xs : JArr) (n : Nat), jarrLen (jarrTake n xs) = min n (jarrLen xs)
  | .nil, n => by
    rw [show jarrTake n .nil = .nil by cases n <;> rfl, jarrLen]
    omega
  | .cons x t, 0 => by
    rw [show jarrTake 0 (JArr.cons x t) = .nil from rfl, jarrLen, jarrLen]
    omega
  | .cons x t, n + 1 => by
    rw [show jarrTake (n + 1) (JArr.cons x t) = .cons x (jarrTake n t) from rfl,
      jarrLen, jarrLen, jarrLen_take t n]
    omega

/-- C5 counterexample: the claim says that on an elements list longer than
`maxItems` the formatter returns exactly `maxItems` items with
`showing == maxItems`.  On `elements = [1, 2, 3]` with `maxItems = 2` the
loop skips the non-dict entries, so the output has zero items and
`showing = 0`, not 2. -/
theorem C5_counterexample_nondict_items :
    format_envelope (.obj (jobj [("elements", .arr (jarr [.num 1, .num 2, .num 3]))])) 2 =
      .ok (.obj (jobj [("items", .arr (jarr [])), ("total_items", .num 2),
        ("showing", .num 0)])) ∧ (0 : Int) ≠ 2 := by
  exact ⟨rfl, by decide⟩

/-- C5 (amended): when every element of the `elements` list is a dict whose
projection succeeds, the formatter keeps exactly `min maxItems length`
items and reports that count as `showing`: `maxItems` items for a longer
list, all items for a shorter list. -/
theorem C5_format_envelope_counts (kvs : JObj) (xs : JArr) (n : Nat)
    (hel : jobjFind kvs "elements" = some (.arr xs))
    (hobj : allObjOk (jarrTake n xs) = true) :
    ∃ items total, format_envelope (.obj kvs) n =
        .ok (.obj (jobj [("items", .arr items), ("total_items", total),
          ("showing", .num (jarrLen items))])) ∧
      jarrLen items = min n (jarrLen xs) := by
  obtain ⟨items, hbuild, hlen⟩ := buildItems_allObj _ hobj
  refine ⟨items, jobjGetD kvs "totalElements" (.num (jarrLen (jarrTake n xs) : Int)), ?_, ?_⟩
  · rw [format_envelope, if_pos (jobjFind_hasKey _ hel), jobjGetD_of_find _ _ hel]
    rw [show pySlice (Json.arr xs) n = Except.ok (Json.arr (jarrTake n xs)) from rfl, bindOk]
    rw [show pyLen (Json.arr (jarrTake n xs)) = Except.ok (jarrLen (jarrTake n xs)) from rfl,
      bindOk]
    dsimp only
    rw [show buildItemsOf (Json.arr (jarrTake n xs)) = buildItems (jarrTake n xs) from rfl,
      hbuild, bindOk]
  · rw [hlen, jarrLen_take]

/-- C5 witness. -/
theorem C5_format_envelope_counts_witness :
    ∃ items total,
      format_envelope (.obj (jobj [("elements", .arr (jarr [.obj (jobj []),
        .obj (jobj [("label", .str "x")])]))])) 1 =
        .ok (.obj (jobj [("items", .arr items), ("total_items", total),
          ("showing", .num (jarrLen items))])) ∧
      jarrLen items = min 1 (jarrLen (jarr [.obj (jobj []), .obj (jobj [("label", .str "x")])])) :=
  C5_format_envelope_counts _ _ 1 rfl rfl

theorem jobjGetD_of_none {k : String} (d : Json) :
    ∀ kvs : JObj, jobjFind kvs k = none → jobjGetD kvs k d = d
  | .nil, _ => rfl
  | .cons k' v' t, h => by
    rw [jobjFind] at h
    rw [jobjGetD]
    by_cases hk : (k' == k) = true
    · rw [if_pos hk] at h
      exact Option.noConfusion h
    · rw [if_neg hk] at h
      rw [if_neg hk]
      exact jobjGetD_of_none d t h

theorem jobjHasKey_eq_isSome (k : String) :
    ∀ kvs : JObj, jobjHasKey kvs k = (jobjFind kvs k).isSome
  | .nil => rfl
  | .cons k' v' t => by
    rw [jobjHasKey, jobjFind]
    by_cases hk : (k' == k) = true
    · rw [if_pos hk, hk, Bool.true_or]
      rfl
    · rw [if_neg hk]
      rw [show (k' == k) = false by simp_all]
      rw [Bool.false_or]
      exact jobjHasKey_eq_isSome k t

/-- C6: in the per-element projection of the formatter, a string
description longer than 200 characters is truncated to exactly its first
200 characters plus the `"..."` marker; a one-element description list
yields its element; an empty description list yields `""`; absent label,
iri and description fields all default to the empty string. -/
theorem C6_description_truncation_and_defaults :
    (∀ (item : JObj) (s : String), jobjFind item "description" = some (.str s) →
      200 < s.length →
      formatItem item = .ok (.obj (jobj [("label", jobjGetD item "label" (.str "")),
        ("iri", jobjGetD item "iri" (.str "")),
        ("description", .str ((⟨s.data.take 200⟩ : String) ++ "..."))])) ∧
      (⟨s.data.take 200⟩ : String).length = 200) ∧
    (∀ item : JObj, jobjFind item "description" = some (.arr (jarr [.str "abc"])) →
      formatItem item = .ok (.obj (jobj [("label", jobjGetD item "label" (.str "")),
        ("iri", jobjGetD item "iri" (.str "")), ("description", .str "abc")]))) ∧
    (∀ item : JObj, jobjFind item "description" = some (.arr (jarr [])) →
      formatItem item = .ok (.obj (jobj [("label", jobjGetD item "label" (.str "")),
        ("iri", jobjGetD item "iri" (.str "")), ("description", .str "")]))) ∧
    (∀ item : JObj, jobjFind item "label" = none → jobjFind item "iri" = none →
      jobjFind item "description" = none →
      formatItem item = .ok (.obj (jobj [("label", .str ""), ("iri", .str ""),
        ("description", .str "")]))) := by
  refine ⟨?_, ?_, ?_, ?_⟩
  · intro item s hfind hlen
    constructor
    · rw [formatItem, jobjGetD_of_find _ _ hfind]
      dsimp only
      rw [if_pos (show 200 < (pyStr (.str s)).length from hlen)]
    · have h1 : (⟨s.data.take 200⟩ : String).length = (s.data.take 200).length := rfl
      have h2 : s.length = s.data.length := rfl
      rw [h1, List.length_take]
      omega
  · intro item hfind
    rw [formatItem, jobjGetD_of_find _ _ hfind]
    dsimp only [jarr]
    rw [if_neg (by decide)]
  · intro item hfind
    rw [formatItem, jobjGetD_of_find _ _ hfind]
    dsimp only [jarr]
    rw [if_neg (by decide)]
  · intro item hl hi hd
    rw [formatItem, jobjGetD_of_none _ _ hl, jobjGetD_of_none _ _ hi, jobjGetD_of_none _ _ hd]
    dsimp only
    rw [if_neg (by decide)]

set_option maxRecDepth 4096 in
/-- C6 witness. -/
theorem C6_description_truncation_witness :
    formatItem (jobj [("description", .str bigDescr)]) =
      .ok (.obj (jobj [("label",
          jobjGetD (jobj [("description", .str bigDescr)]) "label" (.str "")),
        ("iri", jobjGetD (jobj [("description", .str bigDescr)]) "iri" (.str "")),
        ("description", .str ((⟨bigDescr.data.take 200⟩ : String) ++ "..."))])) ∧
    formatItem (jobj [("description", .arr (jarr []))]) =
      .ok (.obj (jobj [("label",
          jobjGetD (jobj [("description", .arr (jarr []))]) "label" (.str "")),
        ("iri", jobjGetD (jobj [("description", .arr (jarr []))]) "iri" (.str "")),
        ("description", .str "")])) :=
  ⟨(C6_description_truncation_and_defaults.1 (jobj [("description", .str bigDescr)])
      bigDescr rfl (by decide)).1,
    C6_description_truncation_and_defaults.2.2.1 (jobj [("description", .arr (jarr []))])
      rfl⟩

/-- C7 counterexample: the claim says `format_response` never fails on any
JSON input.  On the object whose `elements` value is the number 5, Python
evaluates `data["elements"][:10]` and raises `TypeError: 'int' object is
not subscriptable`, which the function does not catch. -/
theorem C7_counterexample_unsliceable_elements :
    format_response (.obj (jobj [("elements", .num 5)])) 10 =
      .error (.typeError "object is not subscriptable") := rfl

/-- C7 (amended): `format_response` returns a string on every input whose
`elements` value, when present, is a list (whose dict entries project
without error) or a string; on such inputs absent or malformed label / iri /
description sub-fields degrade to defaults instead of failing.  Inputs
whose `elements` value is a non-sliceable value, or contains a dict entry
whose description is neither a string nor short, raise instead. -/
theorem C7_format_response_total (data : Json) (n : Nat) (h : formatSafe data n = true) :
    ∃ s, format_response data n = .ok s := by
  cases data with
  | obj kvs =>
    cases hfind : jobjFind kvs "elements" with
    | none =>
      refine ⟨jsonDumps (.obj kvs), ?_⟩
      rw [format_response, format_envelope,
        if_neg (by rw [jobjHasKey_eq_isSome, hfind]; simp)]
      rfl
    | some v =>
      have hkey : jobjHasKey kvs "elements" = true := by
        rw [jobjHasKey_eq_isSome, hfind]
        rfl
      cases v with
      | arr xs =>
        have hitems : allItemsOk (jarrTake n xs) = true := by
          rw [formatSafe, hfind] at h
          exact h
        obtain ⟨items, hbuild⟩ := buildItems_allItems _ hitems
        refine ⟨jsonDumps (.obj (jobj [("items", .arr items),
          ("total_items", jobjGetD kvs "totalElements"
            (.num (jarrLen (jarrTake n xs) : Int))),
          ("showing", .num (jarrLen items : Int))])), ?_⟩
        rw [format_response, format_envelope, if_pos hkey, jobjGetD_of_find _ _ hfind]
        rw [show pySlice (Json.arr xs) n = Except.ok (Json.arr (jarrTake n xs)) from rfl,
          bindOk]
        rw [show pyLen (Json.arr (jarrTake n xs)) = Except.ok (jarrLen (jarrTake n xs))
          from rfl, bindOk]
        dsimp only
        rw [show buildItemsOf (Json.arr (jarrTake n xs)) = buildItems (jarrTake n xs)
          from rfl, hbuild, bindOk]
        rfl
      | str s0 =>
        refine ⟨jsonDumps (.obj (jobj [("items", .arr .nil),
          ("total_items", jobjGetD kvs "totalElements"
            (.num ((⟨s0.data.take n⟩ : String).length : Int))),
          ("showing", .num 0)])), ?_⟩
        rw [format_response, format_envelope, if_pos hkey, jobjGetD_of_find _ _ hfind]
        rw [show pySlice (Json.str s0) n = Except.ok (Json.str ⟨s0.data.take n⟩) from rfl,
          bindOk]
        rw [show pyLen (Json.str ⟨s0.data.take n⟩) =
          Except.ok ((⟨s0.data.take n⟩ : String).length) from rfl, bindOk]
        dsimp only
        rw [show buildItemsOf (Json.str ⟨s0.data.take n⟩) = Except.ok JArr.nil from rfl,
          bindOk]
        rfl
      | null => rw [formatSafe, hfind] at h; exact Bool.noConfusion h
      | boolean b => rw [formatSafe, hfind] at h; exact Bool.noConfusion h
      | num m => rw [formatSafe, hfind] at h; exact Bool.noConfusion h
      | obj o => rw [formatSafe, hfind] at h; exact Bool.noConfusion h
  | null => exact ⟨jsonDumps .null, rfl⟩
  | boolean b => exact ⟨jsonDumps (.boolean b), rfl⟩
  | num m => exact ⟨jsonDumps (.num m), rfl⟩
  | str s => exact ⟨jsonDumps (.str s), rfl⟩
  | arr xs => exact ⟨jsonDumps (.arr xs), rfl⟩

/-- C7 witness. -/
theorem C7_format_response_total_witness :
    ∃ s, format_response (.obj (jobj [("elements",
      .arr (jarr [.num 7, .obj (jobj [("label", .str "x")])]))])) 10 = .ok s :=
  C7_format_response_total _ 10 rfl

theorem vReqStr_cases (kvs : JObj) (key : String) :
    (∃ s, vReqStr kvs key = .ok s) ∨ (∃ m, vReqStr kvs key = .error (.validationError m)) := by
  rw [vReqStr]
  cases jobjFind kvs key with
  | none => exact Or.inr ⟨_, rfl⟩
  | some v =>
    cases v with
    | str s => exact Or.inl ⟨s, rfl⟩
    | null => exact Or.inr ⟨_, rfl⟩
    | boolean b => exact Or.inr ⟨_, rfl⟩
    | num n => exact Or.inr ⟨_, rfl⟩
    | arr xs => exact Or.inr ⟨_, rfl⟩
    | obj o => exact Or.inr ⟨_, rfl⟩

theorem ontologyInfoValidate_title_missing (kvs : JObj) (h : jobjFind kvs "title" = none) :
    ∃ m, ontologyInfoValidate (.obj kvs) = .error (.validationError m) := by
  rw [ontologyInfoValidate]
  rcases vReqStr_cases kvs "ontologyId" with ⟨s, hs⟩ | ⟨m, hm⟩
  · rw [hs, bindOk, show vReqStr kvs "title" =
      .error (.validationError ("title" ++ ": field required")) by rw [vReqStr, h]]
    exact ⟨_, rfl⟩
  · rw [hm]
    exact ⟨m, rfl⟩

theorem vReqUrl_ok {kvs : JObj} {key : String} {s : String}
    (h : vReqUrl kvs key = .ok s) : isAbsHttpUrl s = true := by
  rw [vReqUrl] at h
  split at h <;> try exact Except.noConfusion h
  split at h <;> try exact Except.noConfusion h
  rename_i hu
  injection h with h'
  rw [← h']
  exact hu

theorem termInfoValidate_ok_iri {body : Json} {t : TermInfo}
    (h : termInfoValidate body = .ok t) : isAbsHttpUrl t.iri = true := by
  cases body with
  | obj kvs =>
    rw [termInfoValidate] at h
    cases h1 : vReqUrl kvs "iri" with
    | error e => rw [h1] at h; exact Except.noConfusion h
    | ok s1 =>
      rw [h1, bindOk] at h
      cases h2 : vReqStr kvs "ontology_name" with
      | error e => rw [h2] at h; exact Except.noConfusion h
      | ok s2 =>
        rw [h2, bindOk] at h
        cases h3 : vReqStr kvs "short_form" with
        | error e => rw [h3] at h; exact Except.noConfusion h
        | ok s3 =>
          rw [h3, bindOk] at h
          cases h4 : vReqStr kvs "label" with
          | error e => rw [h4] at h; exact Except.noConfusion h
          | ok s4 =>
            rw [h4, bindOk] at h
            cases h5 : vOptStr kvs "oboId" with
            | error e => rw [h5] at h; exact Except.noConfusion h
            | ok s5 =>
              rw [h5, bindOk] at h
              cases h6 : vOptBoolD kvs "is_obsolete" false with
              | error e => rw [h6] at h; exact Except.noConfusion h
              | ok s6 =>
                rw [h6, bindOk] at h
                injection h with h'
                rw [← h']
                exact vReqUrl_ok h1
  | null =>
    rw [show termInfoValidate Json.null = .error (.validationError "dict required")
      from rfl] at h
    exact Except.noConfusion h
  | boolean b =>
    rw [show termInfoValidate (Json.boolean b) = .error (.validationError "dict required")
      from rfl] at h
    exact Except.noConfusion h
  | num n =>
    rw [show termInfoValidate (Json.num n) = .error (.validationError "dict required")
      from rfl] at h
    exact Except.noConfusion h
  | str s =>
    rw [show termInfoValidate (Json.str s) = .error (.validationError "dict required")
      from rfl] at h
    exact Except.noConfusion h
  | arr xs =>
    rw [show termInfoValidate (Json.arr xs) = .error (.validationError "dict required")
      from rfl] at h
    exact Except.noConfusion h

theorem detailedTermInfoValidate_ok_iri {body : Json} {t : DetailedTermInfo}
    (h : detailedTermInfoValidate body = .ok t) : isAbsHttpUrl t.iri = true := by
  cases body with
  | obj kvs =>
    rw [detailedTermInfoValidate] at h
    cases h1 : vReqUrl kvs "iri" with
    | error e => rw [h1] at h; exact Except.noConfusion h
    | ok s1 =>
      rw [h1, bindOk] at h
      cases h2 : vReqStr kvs "ontology_name" with
      | error e => rw [h2] at h; exact Except.noConfusion h
      | ok s2 =>
        rw [h2, bindOk] at h
        cases h3 : vReqStr kvs "short_form" with
        | error e => rw [h3] at h; exact Except.noConfusion h
        | ok s3 =>
          rw [h3, bindOk] at h
          cases h4 : vReqStr kvs "label" with
          | error e => rw [h4] at h; exact Except.noConfusion h
          | ok s4 =>
            rw [h4, bindOk] at h
            cases h5 : vOptStr kvs "oboId" with
            | error e => rw [h5] at h; exact Except.noConfusion h
            | ok s5 =>
              rw [h5, bindOk] at h
              cases h6 : vOptBoolD kvs "is_obsolete" false with
              | error e => rw [h6] at h; exact Except.noConfusion h
              | ok s6 =>
                rw [h6, bindOk] at h
                cases h7 : vOptStrList kvs "description" with
                | error e => rw [h7] at h; exact Except.noConfusion h
                | ok s7 =>
                  rw [h7, bindOk] at h
                  cases h8 : vOptStrList kvs "synonyms" with
                  | error e => rw [h8] at h; exact Except.noConfusion h
                  | ok s8 =>
                    rw [h8, bindOk] at h
                    injection h with h'
                    rw [← h']
                    exact vReqUrl_ok h1
  | null =>
    rw [show detailedTermInfoValidate Json.null =
      .error (.validationError "dict required") from rfl] at h
    exact Except.noConfusion h
  | boolean b =>
    rw [show detailedTermInfoValidate (Json.boolean b) =
      .error (.validationError "dict required") from rfl] at h
    exact Except.noConfusion h
  | num n =>
    rw [show detailedTermInfoValidate (Json.num n) =
      .error (.validationError "dict required") from rfl] at h
    exact Except.noConfusion h
  | str s =>
    rw [show detailedTermInfoValidate (Json.str s) =
      .error (.validationError "dict required") from rfl] at h
    exact Except.noConfusion h
  | arr xs =>
    rw [show detailedTermInfoValidate (Json.arr xs) =
      .error (.validationError "dict required") from rfl] at h
    exact Except.noConfusion h

theorem detailedTermInfoValidate_iri_missing (t0 : JObj) (h : jobjFind t0 "iri" = none) :
    ∃ m, detailedTermInfoValidate (.obj t0) = .error (.validationError m) := by
  rw [detailedTermInfoValidate, show vReqUrl t0 "iri" =
    .error (.validationError ("iri" ++ ": field required")) by rw [vReqUrl, h]]
  exact ⟨_, rfl⟩

/-- C8 counterexample: the claim says a successful response whose body is
missing a required model field is surfaced to the caller as an error
string.  On the empty body, `get_ontology_info` instead raises the pydantic
`ValidationError` uncaught (the `except` clause only catches
`httpx.HTTPError`), so the result is a raised fault, not an `.ok` string. -/
theorem C8_counterexample_validation_raises :
    get_ontology_info "efo" (.success (.obj (jobj []))) =
      .error (.validationError "ontologyId: field required") := rfl

/-- C8 (amended): a successful response missing a required model field
makes the parse fail for that call with a raised `ValidationError` (it is
not converted to an error string); each call is a pure function of its own
request outcome, so the fault cannot affect any other call. -/
theorem C8_validation_fault_propagates :
    (∀ (oid : String) (kvs : JObj), jobjFind kvs "title" = none →
      ∃ m, get_ontology_info oid (.success (.obj kvs)) = .error (.validationError m)) ∧
    (∀ (tid : String) (t0 : JObj), jobjFind t0 "iri" = none →
      ∃ m, get_term_info tid (.success (.obj (jobj [("_embedded",
        .obj (jobj [("terms", .arr (jarr [.obj t0]))]))]))) =
        .error (.validationError m)) := by
  constructor
  · intro oid kvs h
    obtain ⟨m, hm⟩ := ontologyInfoValidate_title_missing kvs h
    refine ⟨m, ?_⟩
    rw [get_ontology_info, hm]
  · intro tid t0 h
    obtain ⟨m, hm⟩ := detailedTermInfoValidate_iri_missing t0 h
    refine ⟨m, ?_⟩
    have hred : get_term_info tid (.success (.obj (jobj [("_embedded",
        .obj (jobj [("terms", .arr (jarr [.obj t0]))]))]))) =
        (match detailedTermInfoValidate (.obj t0) with
          | .ok t => .ok (.term t)
          | .error e => .error e) := rfl
    rw [hred, hm]

/-- C8 witness. -/
theorem C8_validation_fault_witness :
    (∃ m, get_ontology_info "efo" (.success (.obj (jobj [("ontologyId", .str "efo")]))) =
      .error (.validationError m)) ∧
    (∃ m, get_term_info "DUO_0000017" (.success (.obj (jobj [("_embedded",
      .obj (jobj [("terms", .arr (jarr [.obj (jobj [])]))]))]))) =
      .error (.validationError m)) :=
  ⟨C8_validation_fault_propagates.1 "efo" (jobj [("ontologyId", .str "efo")]) rfl,
    C8_validation_fault_propagates.2 "DUO_0000017" (jobj []) rfl⟩

/-- C9: on every value without an `elements` key (and every non-object
value), `format_response` returns the input pretty-printed and otherwise
unchanged; parsing the returned string with `json.loads` yields a value
structurally equal to the input, and applying the formatter to the parsed
value returns the same string (idempotence). -/
theorem C9_passthrough_roundtrip (data : Json) (n : Nat)
    (h : noElementsKey data = true) :
    format_response data n = .ok (jsonDumps data) ∧
    jsonLoads (jsonDumps data) = some data ∧
    (∀ y, jsonLoads (jsonDumps data) = some y → format_response y n = .ok (jsonDumps data)) := by
  have h1 : format_response data n = .ok (jsonDumps data) := by
    cases data with
    | obj kvs =>
      rw [noElementsKey] at h
      have hk : jobjHasKey kvs "elements" = false := by simpa using h
      rw [format_response, format_envelope, if_neg (by simp [hk])]
      rfl
    | null => rfl
    | boolean b => rfl
    | num m => rfl
    | str s => rfl
    | arr xs => rfl
  refine ⟨h1, jsonLoads_dumps data, ?_⟩
  intro y hy
  rw [jsonLoads_dumps data] at hy
  injection hy with hy'
  rw [← hy']
  exact h1

/-- C9 witness. -/
theorem C9_passthrough_roundtrip_witness :
    format_response (.obj (jobj [("a", .num 1)])) 3 =
      .ok (jsonDumps (.obj (jobj [("a", .num 1)]))) ∧
    jsonLoads (jsonDumps (.obj (jobj [("a", .num 1)]))) = some (.obj (jobj [("a", .num 1)])) ∧
    (∀ y, jsonLoads (jsonDumps (.obj (jobj [("a", .num 1)]))) = some y →
      format_response y 3 = .ok (jsonDumps (.obj (jobj [("a", .num 1)])))) :=
  C9_passthrough_roundtrip (.obj (jobj [("a", .num 1)])) 3 rfl

/-- C10 counterexample: the claim says every required field is non-empty
after parsing and every parsed numeric count is non-negative.  The models
declare no such constraints: `PagedResponse` accepts `totalElements = -5`,
and `OntologyInfo` accepts an empty required `title`. -/
theorem C10_counterexample_lax_validation :
    pagedResponseValidate (.obj (jobj [("totalElements", .num (-5))])) =
      .ok ⟨-5, 0, 20, 0⟩ ∧ (-5 : Int) < 0 ∧
    ontologyInfoValidate (.obj (jobj [("ontologyId", .str "efo"), ("title", .str "")])) =
      .ok ⟨"efo", "", none, none, none, none, none, none, none, none⟩ ∧
    ("" : String).length = 0 :=
  ⟨rfl, by decide, rfl, rfl⟩

/-- C10 (amended): required fields must be present (with the right type) or
the parse fails, but emptiness is not checked; parsed numeric counts are
exactly the integers the response declares, with no sign constraint; and
every parsed term IRI satisfies the absolute-URL check. -/
theorem C10_model_validation_invariants :
    (∀ kvs : JObj, jobjFind kvs "title" = none →
      ∃ m, ontologyInfoValidate (.obj kvs) = .error (.validationError m)) ∧
    (∀ (body : Json) (t : TermInfo), termInfoValidate body = .ok t →
      isAbsHttpUrl t.iri = true) ∧
    (∀ (body : Json) (t : DetailedTermInfo), detailedTermInfoValidate body = .ok t →
      isAbsHttpUrl t.iri = true) ∧
    (∀ n : Int, pagedResponseValidate (.obj (jobj [("totalElements", .num n)])) =
      .ok ⟨n, 0, 20, 0⟩) :=
  ⟨fun kvs h => ontologyInfoValidate_title_missing kvs h,
    fun _ _ h => termInfoValidate_ok_iri h,
    fun _ _ h => detailedTermInfoValidate_ok_iri h,
    fun _ => rfl⟩

/-- C10 witness. -/
theorem C10_model_validation_witness :
    (∃ m, ontologyInfoValidate (.obj (jobj [("ontologyId", .str "efo")])) =
      .error (.validationError m)) ∧
    isAbsHttpUrl (TermInfo.iri ⟨"http://purl.obolibrary.org/obo/DUO_0000017", "duo",
      "DUO_0000017", "consent", none, some false⟩) = true :=
  ⟨C10_model_validation_invariants.1 (jobj [("ontologyId", .str "efo")]) rfl,
    C10_model_validation_invariants.2.1
      (.obj (jobj [("iri", .str "http://purl.obolibrary.org/obo/DUO_0000017"),
        ("ontology_name", .str "duo"), ("short_form", .str "DUO_0000017"),
        ("label", .str "consent")]))
      ⟨"http://purl.obolibrary.org/obo/DUO_0000017", "duo", "DUO_0000017", "consent",
        none, some false⟩ rfl⟩
